import Mathlib

/-!
Verification development for the Content-Tracker backend
(`backend/app/services/search_service.py`, `backend/app/services/markdown_service.py`,
`backend/app/db/init_db.py`, `backend/app/config.py`, `backend/app/models/content.py`).

Strings are modelled as `List Char`.  SQLite behaviour that the code relies on is
modelled explicitly: the `LIKE` operator (with its `%` and `_` wildcards and
ASCII case folding), `INSERT OR REPLACE` keyed by the declared uniqueness
constraints, `ORDER BY ... DESC` as a deterministic stable sort for a fixed
table state, and `NULL` columns as `Option`.
-/

namespace CT

/-- Strings of the modelled program are lists of characters. -/
abbrev Str := List Char

/-- Coerce a Lean string literal to the model's string type. -/
def chars (s : String) : Str := s.data

/-- Fold of an ASCII upper-case letter to lower case; identity on every other
character.  This is the case folding SQLite's `LIKE` applies. -/
def charFold (c : Char) : Char :=
  if 65 ≤ c.toNat ∧ c.toNat ≤ 90 then Char.ofNat (c.toNat + 32) else c

/-- Fuel-driven core of SQLite's `LIKE` operator: `%` matches any sequence,
`_` matches exactly one character, any other pattern character matches one text
character up to ASCII case folding.  Fuel only serves termination; it is
irrelevant once it exceeds the combined length of pattern and text. -/
def likeF : Nat → Str → Str → Bool
  | 0, _, _ => false
  | _ + 1, [], t => t.isEmpty
  | f + 1, p :: ps, [] =>
      if p = '%' then likeF f ps [] else false
  | f + 1, p :: ps, c :: t2 =>
      if p = '%' then likeF f ps (c :: t2) || likeF f (p :: ps) t2
      else if p = '_' then likeF f ps t2
      else (charFold p = charFold c) && likeF f ps t2

/-- SQLite `LIKE` with adequate fuel. -/
def sqlLike (p t : Str) : Bool := likeF (p.length + t.length + 1) p t

theorem likeF_congr :
    ∀ f g p t, p.length + t.length < f → p.length + t.length < g →
      likeF f p t = likeF g p t := by
  intro f
  induction f with
  | zero => intro g p t hf; omega
  | succ f ih =>
    intro g p t hf hg
    match g, hg with
    | g + 1, hg =>
      cases p with
      | nil => simp [likeF]
      | cons p ps =>
        cases t with
        | nil =>
          simp only [likeF]
          by_cases hp : p = '%'
          · simp only [if_pos hp]
            exact ih g ps [] (by simp at hf ⊢; omega) (by simp at hg ⊢; omega)
          · simp only [if_neg hp]
        | cons c t2 =>
          simp only [likeF]
          by_cases hp : p = '%'
          · simp only [if_pos hp]
            rw [ih g ps (c :: t2) (by simp at hf ⊢; omega)
              (by simp at hg ⊢; omega)]
            rw [ih g (p :: ps) t2 (by simp at hf ⊢; omega)
              (by simp at hg ⊢; omega)]
          · simp only [if_neg hp]
            by_cases hu : p = '_'
            · simp only [if_pos hu]
              exact ih g ps t2 (by simp at hf ⊢; omega) (by simp at hg ⊢; omega)
            · simp only [if_neg hu]
              rw [ih g ps t2 (by simp at hf ⊢; omega) (by simp at hg ⊢; omega)]

theorem sqlLike_eq_likeF (p t : Str) (f : Nat) (h : p.length + t.length < f) :
    sqlLike p t = likeF f p t :=
  likeF_congr (p.length + t.length + 1) f p t (by omega) h

theorem sqlLike_nil_left (t : Str) : sqlLike [] t = t.isEmpty := by
  rw [sqlLike_eq_likeF [] t (t.length + 1) (by simp)]
  show likeF (t.length + 1) [] t = t.isEmpty
  rfl

theorem sqlLike_pct_nil (ps : Str) : sqlLike ('%' :: ps) [] = sqlLike ps [] := by
  rw [sqlLike_eq_likeF ('%' :: ps) [] (ps.length + 2)
      (by simp only [List.length_cons, List.length_nil]; omega),
    sqlLike_eq_likeF ps [] (ps.length + 1)
      (by simp only [List.length_nil]; omega)]
  show likeF (ps.length + 1 + 1) ('%' :: ps) [] = likeF (ps.length + 1) ps []
  simp [likeF]

theorem sqlLike_pct_cons (ps : Str) (c : Char) (t2 : Str) :
    sqlLike ('%' :: ps) (c :: t2) =
      (sqlLike ps (c :: t2) || sqlLike ('%' :: ps) t2) := by
  rw [sqlLike_eq_likeF ('%' :: ps) (c :: t2) (ps.length + t2.length + 3)
      (by simp only [List.length_cons]; omega),
    sqlLike_eq_likeF ps (c :: t2) (ps.length + t2.length + 2)
      (by simp only [List.length_cons]; omega),
    sqlLike_eq_likeF ('%' :: ps) t2 (ps.length + t2.length + 2)
      (by simp only [List.length_cons]; omega)]
  show likeF (ps.length + t2.length + 2 + 1) ('%' :: ps) (c :: t2) =
    (likeF (ps.length + t2.length + 2) ps (c :: t2) ||
      likeF (ps.length + t2.length + 2) ('%' :: ps) t2)
  simp [likeF]

theorem sqlLike_cons_nil (p : Char) (ps : Str) (hp : p ≠ '%') :
    sqlLike (p :: ps) [] = false := by
  rw [sqlLike_eq_likeF (p :: ps) [] (ps.length + 2)
    (by simp only [List.length_cons, List.length_nil]; omega)]
  show likeF (ps.length + 1 + 1) (p :: ps) [] = false
  simp [likeF, hp]

theorem sqlLike_us_cons (ps : Str) (c : Char) (t2 : Str) :
    sqlLike ('_' :: ps) (c :: t2) = sqlLike ps t2 := by
  rw [sqlLike_eq_likeF ('_' :: ps) (c :: t2) (ps.length + t2.length + 3)
      (by simp only [List.length_cons]; omega),
    sqlLike_eq_likeF ps t2 (ps.length + t2.length + 2) (by omega)]
  show likeF (ps.length + t2.length + 2 + 1) ('_' :: ps) (c :: t2) =
    likeF (ps.length + t2.length + 2) ps t2
  simp [likeF]

theorem sqlLike_char_cons (p : Char) (ps : Str) (c : Char) (t2 : Str)
    (hp : p ≠ '%') (hu : p ≠ '_') :
    sqlLike (p :: ps) (c :: t2) =
      ((charFold p = charFold c) && sqlLike ps t2) := by
  rw [sqlLike_eq_likeF (p :: ps) (c :: t2) (ps.length + t2.length + 3)
      (by simp only [List.length_cons]; omega),
    sqlLike_eq_likeF ps t2 (ps.length + t2.length + 2) (by omega)]
  show likeF (ps.length + t2.length + 2 + 1) (p :: ps) (c :: t2) =
    ((charFold p = charFold c) && likeF (ps.length + t2.length + 2) ps t2)
  simp [likeF, hp, hu]

/-- Characters that are neither of the two `LIKE` wildcards. -/
def wildcardFree (s : Str) : Prop := ∀ c ∈ s, c ≠ '%' ∧ c ≠ '_'

theorem sqlLike_pct_iff (ps t : Str) :
    sqlLike ('%' :: ps) t = true ↔ ∃ n, sqlLike ps (t.drop n) = true := by
  induction t with
  | nil =>
    rw [sqlLike_pct_nil]
    exact ⟨fun h => ⟨0, h⟩, fun ⟨n, h⟩ => by simpa using h⟩
  | cons c t2 ih =>
    rw [sqlLike_pct_cons]
    constructor
    · intro h
      rcases Bool.or_eq_true_iff.mp h with h1 | h2
      · exact ⟨0, h1⟩
      · obtain ⟨n, hn⟩ := ih.mp h2
        exact ⟨n + 1, hn⟩
    · rintro ⟨n, hn⟩
      cases n with
      | zero => exact Bool.or_eq_true_iff.mpr (Or.inl hn)
      | succ n => exact Bool.or_eq_true_iff.mpr (Or.inr (ih.mpr ⟨n, hn⟩))

theorem sqlLike_tail_pct_iff (mid t : Str) (hw : wildcardFree mid) :
    sqlLike (mid ++ ['%']) t = true ↔
      (mid.map charFold) <+: (t.map charFold) := by
  induction mid generalizing t with
  | nil =>
    simp only [List.nil_append, List.map_nil]
    constructor
    · intro _; exact List.nil_prefix
    · intro _
      rw [sqlLike_pct_iff]
      exact ⟨t.length, by simp [sqlLike_nil_left]⟩
  | cons m ms ih =>
    have hm := hw m (by simp)
    cases t with
    | nil =>
      rw [List.cons_append, sqlLike_cons_nil m (ms ++ ['%']) hm.1]
      simp
    | cons c t2 =>
      rw [List.cons_append, sqlLike_char_cons m (ms ++ ['%']) c t2 hm.1 hm.2]
      simp only [List.map_cons, List.cons_prefix_cons, Bool.and_eq_true,
        decide_eq_true_eq]
      exact and_congr Iff.rfl
        (ih t2 (fun x hx => hw x (by simp [hx])))

theorem infix_iff_exists_prefix_drop {α : Type} (l₁ l₂ : List α) :
    l₁ <:+: l₂ ↔ ∃ n, l₁ <+: l₂.drop n := by
  constructor
  · rintro ⟨s, t, h⟩
    refine ⟨s.length, ?_⟩
    rw [← h, List.append_assoc, List.drop_left]
    exact ⟨t, rfl⟩
  · rintro ⟨n, hp⟩
    exact hp.isInfix.trans (List.drop_suffix n l₂).isInfix

theorem sqlLike_substr_iff (mid t : Str) (hw : wildcardFree mid) :
    sqlLike ('%' :: (mid ++ ['%'])) t = true ↔
      (mid.map charFold) <:+: (t.map charFold) := by
  rw [sqlLike_pct_iff, infix_iff_exists_prefix_drop]
  constructor
  · rintro ⟨n, hn⟩
    exact ⟨n, by rw [← List.map_drop]; exact (sqlLike_tail_pct_iff mid _ hw).mp hn⟩
  · rintro ⟨n, hn⟩
    exact ⟨n, (sqlLike_tail_pct_iff mid _ hw).mpr (by rwa [List.map_drop])⟩

/-- Lower-case hexadecimal digit, as used by `json.dumps` unicode escapes. -/
def hexDigit (n : Nat) : Char :=
  if n < 10 then Char.ofNat (48 + n) else Char.ofNat (87 + n)

/-- Four lower-case hex digits. -/
def hex4 (n : Nat) : Str :=
  [hexDigit (n / 4096 % 16), hexDigit (n / 256 % 16),
   hexDigit (n / 16 % 16), hexDigit (n % 16)]

/-- Escape of one character inside a JSON string, following `json.dumps` with
its default `ensure_ascii=True` (quote, backslash and the common control
characters get two-character escapes; other control characters and every
non-ASCII character become `\uXXXX`, with surrogate pairs above U+FFFF). -/
def jsonEscChar (c : Char) : Str :=
  if c = '"' then ['\\', '"']
  else if c = '\\' then ['\\', '\\']
  else if c = '\n' then ['\\', 'n']
  else if c = '\t' then ['\\', 't']
  else if c = '\r' then ['\\', 'r']
  else if c.toNat = 8 then ['\\', 'b']
  else if c.toNat = 12 then ['\\', 'f']
  else if c.toNat < 32 ∨ 126 < c.toNat then
    if c.toNat < 65536 then '\\' :: 'u' :: hex4 c.toNat
    else ('\\' :: 'u' :: hex4 (55296 + (c.toNat - 65536) / 1024)) ++
      ('\\' :: 'u' :: hex4 (56320 + (c.toNat - 65536) % 1024))
  else [c]

/-- Serialization of a JSON string value: quotes around the escaped body. -/
def jsonQuote (s : Str) : Str := '"' :: ((s.map jsonEscChar).flatten ++ ['"'])

/-- Join with `json.dumps`' default item separator `", "`. -/
def joinCommaSp : List Str → Str
  | [] => []
  | [x] => x
  | x :: y :: xs => x ++ ',' :: ' ' :: joinCommaSp (y :: xs)

/-- Serialization `json.dumps(l)` of a list of strings, as written by
`index_content_item` for the `tags` and `categories` columns. -/
def dumpStrArr (l : List Str) : Str :=
  '[' :: (joinCommaSp (l.map jsonQuote) ++ [']'])

/-- Plain characters: lower-case ASCII letters and digits.  They need no JSON
escaping, are no `LIKE` wildcards and are fixed by ASCII case folding. -/
def plainChar (c : Char) : Prop :=
  (97 ≤ c.toNat ∧ c.toNat ≤ 122) ∨ (48 ≤ c.toNat ∧ c.toNat ≤ 57)

/-- a string all of whose characters are plain. -/
def plainStr (s : Str) : Prop := ∀ c ∈ s, plainChar c

instance (c : Char) : Decidable (plainChar c) := by
  unfold plainChar; infer_instance

instance (s : Str) : Decidable (plainStr s) := by
  unfold plainStr; infer_instance

theorem plainChar_ne (c d : Char)
    (h : plainChar c)
    (hd : d.toNat < 48 ∨ (57 < d.toNat ∧ d.toNat < 97) ∨ 122 < d.toNat) :
    c ≠ d := by
  intro he
  subst he
  rcases h with ⟨h1, h2⟩ | ⟨h1, h2⟩ <;> omega

theorem jsonEscChar_plain (c : Char) (h : plainChar c) : jsonEscChar c = [c] := by
  have h34 : c ≠ '"' := plainChar_ne c '"' h (by decide)
  have h92 : c ≠ '\\' := plainChar_ne c '\\' h (by decide)
  have h10 : c ≠ '\n' := plainChar_ne c '\n' h (by decide)
  have h9 : c ≠ '\t' := plainChar_ne c '\t' h (by decide)
  have h13 : c ≠ '\r' := plainChar_ne c '\r' h (by decide)
  unfold jsonEscChar
  rw [if_neg h34, if_neg h92, if_neg h10, if_neg h9, if_neg h13,
    if_neg (by rcases h with ⟨h1, h2⟩ | ⟨h1, h2⟩ <;> omega),
    if_neg (by rcases h with ⟨h1, h2⟩ | ⟨h1, h2⟩ <;> omega),
    if_neg (by rcases h with ⟨h1, h2⟩ | ⟨h1, h2⟩ <;> push_neg <;> constructor <;> omega)]

/-- Quoting of a plain string does not escape anything. -/
theorem jsonQuote_plain (s : Str) (h : plainStr s) :
    jsonQuote s = '"' :: (s ++ ['"']) := by
  unfold jsonQuote
  congr 1
  congr 1
  induction s with
  | nil => rfl
  | cons c cs ih =>
    simp only [List.map_cons, List.flatten_cons,
      jsonEscChar_plain c (h c (by simp)), List.cons_append, List.nil_append]
    rw [ih (fun x hx => h x (by simp [hx]))]

/-- Characters on which `LIKE`'s ASCII case folding is the identity. -/
theorem charFold_fixed (c : Char) (h : c.toNat < 65 ∨ 90 < c.toNat) :
    charFold c = c := by
  unfold charFold
  rw [if_neg]
  omega

theorem map_charFold_fixed (s : Str) (h : ∀ c ∈ s, c.toNat < 65 ∨ 90 < c.toNat) :
    s.map charFold = s := by
  induction s with
  | nil => rfl
  | cons c cs ih =>
    simp only [List.map_cons, charFold_fixed c (h c (by simp)),
      ih (fun x hx => h x (by simp [hx]))]

/-- Shorthand for a quoted plain string inside a JSON dump. -/
def qt (s : Str) : Str := '"' :: (s ++ ['"'])

theorem qt_infix_cons (t : Str) (c : Char) (u : Str) (hc : c ≠ '"') :
    qt t <:+: (c :: u) ↔ qt t <:+: u := by
  rw [List.infix_cons_iff]
  constructor
  · rintro (hp | h)
    · exfalso
      have hp2 : ('"' : Char) :: (t ++ ['"']) <+: c :: u := hp
      rw [List.cons_prefix_cons] at hp2
      exact hc hp2.1.symm
    · exact h
  · intro h
    exact Or.inr h

theorem qt_infix_append_qf (t a u : Str) (ha : ∀ c ∈ a, c ≠ '"') :
    qt t <:+: (a ++ u) ↔ qt t <:+: u := by
  induction a with
  | nil => simp
  | cons c cs ih =>
    rw [List.cons_append, qt_infix_cons t c _ (ha c (by simp))]
    exact ih (fun x hx => ha x (by simp [hx]))

theorem close_prefix_iff (t a r : Str)
    (ht : ∀ c ∈ t, c ≠ '"') (ha : ∀ c ∈ a, c ≠ '"') :
    (t ++ ['"'] <+: a ++ '"' :: r) ↔ t = a := by
  induction t generalizing a with
  | nil =>
    cases a with
    | nil =>
      simp only [List.nil_append, List.cons_prefix_cons]
      simp
    | cons c as =>
      simp only [List.nil_append, List.cons_append, List.cons_prefix_cons]
      constructor
      · rintro ⟨h1, _⟩
        exact absurd h1.symm (ha c (by simp))
      · intro h
        exact absurd h (by simp)
  | cons d ts ih =>
    cases a with
    | nil =>
      simp only [List.cons_append, List.nil_append, List.cons_prefix_cons]
      constructor
      · rintro ⟨h1, _⟩
        exact absurd h1 (ht d (by simp))
      · intro h
        exact absurd h (by simp)
    | cons c as =>
      simp only [List.cons_append, List.cons_prefix_cons, List.cons.injEq]
      exact and_congr Iff.rfl
        (ih as (fun x hx => ht x (by simp [hx])) (fun x hx => ha x (by simp [hx])))

theorem plain_quoteFree (t : Str) (ht : plainStr t) : ∀ c ∈ t, c ≠ '"' :=
  fun c hc => plainChar_ne c '"' (ht c hc) (by decide)

theorem qt_prefix_quote_iff (t a r : Str) (ht : plainStr t)
    (ha : ∀ c ∈ a, c ≠ '"') :
    qt t <+: ('"' :: (a ++ '"' :: r)) ↔ t = a := by
  show ('"' : Char) :: (t ++ ['"']) <+: _ ↔ _
  rw [List.cons_prefix_cons]
  simp only [true_iff, eq_self_iff_true, true_and]
  exact close_prefix_iff t a r (plain_quoteFree t ht) ha

theorem qt_prefix_quote_cons (t u : Str) :
    qt t <+: ('"' :: u) ↔ t ++ ['"'] <+: u := by
  show ('"' : Char) :: (t ++ ['"']) <+: _ ↔ _
  rw [List.cons_prefix_cons]
  simp

theorem close_prefix_sep_false (t : Str) (ht : plainStr t) (d : Char)
    (hd : d.toNat < 48 ∨ (57 < d.toNat ∧ d.toNat < 97) ∨ 122 < d.toNat)
    (hdq : d ≠ '"') (u : Str) : ¬ (t ++ ['"'] <+: d :: u) := by
  cases t with
  | nil =>
    simp only [List.nil_append, List.cons_prefix_cons]
    rintro ⟨h1, _⟩
    exact hdq h1.symm
  | cons c ts =>
    simp only [List.cons_append, List.cons_prefix_cons]
    rintro ⟨h1, _⟩
    exact plainChar_ne c d (ht c (by simp)) hd h1

theorem qt_length (t : Str) : (qt t).length = t.length + 2 := by
  simp [qt]

theorem qt_infix_join_iff (t : Str) (l : List Str) (ht : plainStr t)
    (hl : ∀ a ∈ l, plainStr a) :
    qt t <:+: (joinCommaSp (l.map qt) ++ [']']) ↔ t ∈ l := by
  induction l with
  | nil =>
    simp only [List.map_nil, List.not_mem_nil, iff_false]
    intro h
    have h1 := h.length_le
    rw [qt_length] at h1
    simp [joinCommaSp] at h1
  | cons a as ih =>
    have hqa : ∀ c ∈ a, c ≠ '"' := plain_quoteFree a (hl a (by simp))
    cases as with
    | nil =>
      show qt t <:+: (qt a ++ [']']) ↔ t ∈ [a]
      have hsh : qt a ++ [']'] = '"' :: (a ++ '"' :: [']']) := by
        simp [qt]
      rw [hsh, List.infix_cons_iff]
      constructor
      · rintro (hp | hi)
        · rw [qt_prefix_quote_iff t a [']'] ht hqa] at hp
          simp [hp]
        · rw [qt_infix_append_qf t a _ hqa] at hi
          rcases List.infix_cons_iff.mp hi with hp2 | hi2
          · rw [qt_prefix_quote_cons] at hp2
            exact absurd hp2 (close_prefix_sep_false t ht ']' (by decide)
              (by decide) [])
          · exfalso
            have h1 := hi2.length_le
            rw [qt_length] at h1
            simp at h1
      · intro hmem
        rw [List.mem_singleton] at hmem
        subst hmem
        left
        rw [qt_prefix_quote_iff t t [']'] ht hqa]
    | cons b bs =>
      show qt t <:+: ((qt a ++ ',' :: ' ' :: joinCommaSp (qt b :: bs.map qt))
        ++ [']']) ↔ t ∈ a :: b :: bs
      have hsh : (qt a ++ ',' :: ' ' :: joinCommaSp (qt b :: bs.map qt)) ++ [']'] =
          '"' :: (a ++ '"' :: (',' :: ' ' ::
            (joinCommaSp (qt b :: bs.map qt) ++ [']']))) := by
        simp [qt]
      rw [hsh, List.infix_cons_iff]
      have hrest : qt t <:+: (',' :: ' ' ::
          (joinCommaSp (qt b :: bs.map qt) ++ [']'])) ↔ t ∈ b :: bs := by
        rw [qt_infix_cons t ',' _ (fun h => absurd h (by decide)),
          qt_infix_cons t ' ' _ (fun h => absurd h (by decide))]
        exact ih (fun x hx => hl x (by simp [hx]))
      constructor
      · rintro (hp | hi)
        · rw [qt_prefix_quote_iff t a _ ht hqa] at hp
          simp [hp]
        · rw [qt_infix_append_qf t a _ hqa] at hi
          rcases List.infix_cons_iff.mp hi with hp2 | hi2
          · rw [qt_prefix_quote_cons] at hp2
            exact absurd hp2 (close_prefix_sep_false t ht ',' (by decide)
              (by decide) _)
          · have := hrest.mp hi2
            simp [this]
      · intro hmem
        rcases List.mem_cons.mp hmem with heq | hmem2
        · subst heq
          left
          rw [qt_prefix_quote_iff t t _ ht hqa]
        · right
          rw [qt_infix_append_qf t a _ hqa]
          exact List.infix_cons (hrest.mpr hmem2)

theorem mem_qt_range (a : Str) (ha : plainStr a) :
    ∀ c ∈ qt a, c.toNat < 65 ∨ 90 < c.toNat := by
  intro c hc
  simp only [qt, List.mem_cons, List.mem_append, List.not_mem_nil,
    or_false] at hc
  rcases hc with h | h | h
  · subst h; left; decide
  · rcases ha c h with ⟨h1, h2⟩ | ⟨h1, h2⟩ <;> omega
  · subst h; left; decide

theorem mem_join_qt_range (l : List Str) (hl : ∀ a ∈ l, plainStr a) :
    ∀ c ∈ joinCommaSp (l.map qt), c.toNat < 65 ∨ 90 < c.toNat := by
  induction l with
  | nil => intro c hc; simp [joinCommaSp] at hc
  | cons a as ih =>
    intro c hc
    cases as with
    | nil =>
      exact mem_qt_range a (hl a (by simp)) c hc
    | cons b bs =>
      have hc2 : c ∈ qt a ++ ',' :: ' ' :: joinCommaSp (qt b :: bs.map qt) := hc
      simp only [List.mem_append, List.mem_cons] at hc2
      rcases hc2 with h | h | h | h
      · exact mem_qt_range a (hl a (by simp)) c h
      · subst h; left; decide
      · subst h; left; decide
      · exact ih (fun x hx => hl x (by simp [hx])) c h

theorem map_charFold_dump (l : List Str) (hl : ∀ a ∈ l, plainStr a) :
    (dumpStrArr l).map charFold = dumpStrArr l := by
  apply map_charFold_fixed
  intro c hc
  have hq : l.map jsonQuote = l.map qt :=
    List.map_congr_left (fun a ha => jsonQuote_plain a (hl a ha))
  rw [dumpStrArr, hq] at hc
  simp only [List.mem_cons, List.mem_append, List.not_mem_nil,
    or_false] at hc
  rcases hc with h | h | h
  · subst h; right; decide
  · exact mem_join_qt_range l hl c h
  · subst h; right; decide

theorem map_charFold_qt (a : Str) (ha : plainStr a) :
    (qt a).map charFold = qt a :=
  map_charFold_fixed _ (mem_qt_range a ha)

theorem wildcardFree_qt (t : Str) (ht : plainStr t) : wildcardFree (qt t) := by
  intro c hc
  simp only [qt, List.mem_cons, List.mem_append, List.not_mem_nil,
    or_false] at hc
  rcases hc with h | h | h
  · subst h; constructor <;> decide
  · exact ⟨plainChar_ne c '%' (ht c h) (by decide),
      plainChar_ne c '_' (ht c h) (by decide)⟩
  · subst h; constructor <;> decide

/-- the `LIKE` pattern `f-string %"{tag}"%` that `search_content` builds for
each requested tag. -/
def tagLikePattern (t : Str) : Str := '%' :: '"' :: (t ++ ['"', '%'])

theorem tagLikePattern_eq (t : Str) :
    tagLikePattern t = '%' :: (qt t ++ ['%']) := by
  simp [tagLikePattern, qt]

/-- a plain requested tag `LIKE`-matches the serialized `tags_json` blob of a
row with plain tags exactly when it is a member of the row's tag list. -/
theorem tagLike_mem_iff (t : Str) (tags : List Str) (ht : plainStr t)
    (htags : ∀ a ∈ tags, plainStr a) :
    sqlLike (tagLikePattern t) (dumpStrArr tags) = true ↔ t ∈ tags := by
  rw [tagLikePattern_eq,
    sqlLike_substr_iff (qt t) (dumpStrArr tags) (wildcardFree_qt t ht),
    map_charFold_qt t ht, map_charFold_dump tags htags]
  have hq : tags.map jsonQuote = tags.map qt :=
    List.map_congr_left (fun a ha => jsonQuote_plain a (htags a ha))
  rw [dumpStrArr, hq, qt_infix_cons t '[' _ (by decide)]
  exact qt_infix_join_iff t tags ht htags

mutual

/-- JSON values, as produced and consumed by `json.dumps` / `json.loads` for
the `categories_json`, `tags_json` and `custom_fields_json` columns.  Numeric
values are modelled as integers. -/
inductive Json where
  | null : Json
  | bool (b : Bool) : Json
  | num (n : Int) : Json
  | str (s : Str) : Json
  | arr (a : JsonList) : Json
  | obj (o : JsonObjList) : Json

/-- List of JSON values (spelled out so that recursion stays structural). -/
inductive JsonList where
  | nil : JsonList
  | cons (hd : Json) (tl : JsonList) : JsonList

/-- Ordered key/value fields of a JSON object. -/
inductive JsonObjList where
  | nil : JsonObjList
  | cons (k : Str) (v : Json) (tl : JsonObjList) : JsonObjList

end

deriving instance DecidableEq for Json, JsonList, JsonObjList

mutual

/-- Model of `json.dumps` with its default separators `", "` and `": "` and
`ensure_ascii=True`. -/
def jsonDump : Json → Str
  | .null => chars "null"
  | .bool true => chars "true"
  | .bool false => chars "false"
  | .num n => (toString n).data
  | .str s => jsonQuote s
  | .arr a => '[' :: (jsonDumpItems a ++ [']'])
  | .obj o => '\x7b' :: (jsonDumpFields o ++ ['\x7d'])

/-- Comma-space separated dump of array items. -/
def jsonDumpItems : JsonList → Str
  | .nil => []
  | .cons j .nil => jsonDump j
  | .cons j (.cons j2 tl) =>
      jsonDump j ++ ',' :: ' ' :: jsonDumpItems (.cons j2 tl)

/-- Comma-space separated dump of object fields with `": "` after each key. -/
def jsonDumpFields : JsonObjList → Str
  | .nil => []
  | .cons k v .nil => jsonQuote k ++ ':' :: ' ' :: jsonDump v
  | .cons k v (.cons k2 v2 tl) =>
      (jsonQuote k ++ ':' :: ' ' :: jsonDump v) ++
        ',' :: ' ' :: jsonDumpFields (.cons k2 v2 tl)

end

/-- Whitespace skipping of the JSON reader. -/
def skipWs : Str → Str
  | [] => []
  | c :: r =>
      if c = ' ' ∨ c = '\n' ∨ c = '\t' ∨ c = '\r' then skipWs r else c :: r

/-- Unescape of a single-character JSON escape. -/
def unescapeChar (e : Char) : Option Char :=
  if e = '"' then some '"'
  else if e = '\\' then some '\\'
  else if e = '/' then some '/'
  else if e = 'n' then some '\n'
  else if e = 't' then some '\t'
  else if e = 'r' then some '\r'
  else if e = 'b' then some (Char.ofNat 8)
  else if e = 'f' then some (Char.ofNat 12)
  else none

/-- Hex digit value. -/
def hexVal (c : Char) : Option Nat :=
  if 48 ≤ c.toNat ∧ c.toNat ≤ 57 then some (c.toNat - 48)
  else if 97 ≤ c.toNat ∧ c.toNat ≤ 102 then some (c.toNat - 87)
  else if 65 ≤ c.toNat ∧ c.toNat ≤ 70 then some (c.toNat - 55)
  else none

/-- Body of a JSON string after the opening quote: returns the decoded
characters and the rest of the input after the closing quote. -/
def parseJStr : Str → Option (Str × Str)
  | [] => none
  | '"' :: r => some ([], r)
  | '\\' :: 'u' :: h1 :: h2 :: h3 :: h4 :: r => do
      let n1 ← hexVal h1
      let n2 ← hexVal h2
      let n3 ← hexVal h3
      let n4 ← hexVal h4
      let p ← parseJStr r
      some (Char.ofNat (n1 * 4096 + n2 * 256 + n3 * 16 + n4) :: p.1, p.2)
  | '\\' :: e :: r => do
      let c ← unescapeChar e
      let p ← parseJStr r
      some (c :: p.1, p.2)
  | c :: r => do
      let p ← parseJStr r
      some (c :: p.1, p.2)

/-- Decimal digit run with accumulator. -/
def parseDigitsAux (acc : Nat) : Str → Nat × Str
  | [] => (acc, [])
  | c :: r =>
      if 48 ≤ c.toNat ∧ c.toNat ≤ 57 then
        parseDigitsAux (acc * 10 + (c.toNat - 48)) r
      else (acc, c :: r)

/-- a decimal natural number: requires at least one leading digit. -/
def parseJNat : Str → Option (Nat × Str)
  | [] => none
  | c :: r =>
      if 48 ≤ c.toNat ∧ c.toNat ≤ 57 then some (parseDigitsAux 0 (c :: r))
      else none

mutual

/-- Fuel-driven JSON value reader modelling `json.loads`. -/
def parseJVal : Nat → Str → Option (Json × Str)
  | 0, _ => none
  | f + 1, s =>
      match skipWs s with
      | 'n' :: 'u' :: 'l' :: 'l' :: r => some (.null, r)
      | 't' :: 'r' :: 'u' :: 'e' :: r => some (.bool true, r)
      | 'f' :: 'a' :: 'l' :: 's' :: 'e' :: r => some (.bool false, r)
      | '"' :: r => (parseJStr r).map (fun p => (.str p.1, p.2))
      | '[' :: r =>
          (match skipWs r with
            | ']' :: r2 => some (.arr .nil, r2)
            | _ => (parseJItems f r).map (fun p => (.arr p.1, p.2)))
      | '\x7b' :: r =>
          (match skipWs r with
            | '\x7d' :: r2 => some (.obj .nil, r2)
            | _ => (parseJFields f r).map (fun p => (.obj p.1, p.2)))
      | '-' :: r => (parseJNat r).map (fun p => (.num (-(p.1 : Int)), p.2))
      | c :: r =>
          if 48 ≤ c.toNat ∧ c.toNat ≤ 57 then
            (parseJNat (c :: r)).map (fun p => (.num (p.1 : Int), p.2))
          else none
      | [] => none

/-- Comma-separated array items up to the closing bracket. -/
def parseJItems : Nat → Str → Option (JsonList × Str)
  | 0, _ => none
  | f + 1, s => do
      let p ← parseJVal f s
      match skipWs p.2 with
      | ',' :: r2 => do
          let q ← parseJItems f r2
          some (.cons p.1 q.1, q.2)
      | ']' :: r2 => some (.cons p.1 .nil, r2)
      | _ => none

/-- Comma-separated object fields up to the closing brace. -/
def parseJFields : Nat → Str → Option (JsonObjList × Str)
  | 0, _ => none
  | f + 1, s =>
      match skipWs s with
      | '"' :: r => do
          let kp ← parseJStr r
          match skipWs kp.2 with
          | ':' :: r3 => do
              let vp ← parseJVal f r3
              match skipWs vp.2 with
              | ',' :: r5 => do
                  let q ← parseJFields f r5
                  some (.cons kp.1 vp.1 q.1, q.2)
              | '\x7d' :: r5 => some (.cons kp.1 vp.1 .nil, r5)
              | _ => none
          | _ => none
      | _ => none

end

/-- Model of `json.loads`: parse one value and require only trailing
whitespace afterwards. -/
def jsonLoads (s : Str) : Option Json := do
  let p ← parseJVal (2 * s.length + 2) s
  if (skipWs p.2).isEmpty then some p.1 else none

/-- Model of the pydantic `ContentResponse`: one content item as used by the
services.  `date` values are represented by their ISO-8601 strings, so
`isoformat()` is the identity.  Note the model, like the source class,
has no `client` field. -/
structure ContentItem where
  id : Str
  file_path : Str
  title : Str
  content_type : Str
  status : Str
  created_date : Str
  updated_date : Str
  publish_date : Option Str
  author : Option Str
  url : Option Str
  description : Option Str
  categories : List Str
  tags : List Str
  custom_fields : JsonObjList
  body : Str
deriving DecidableEq

/-- one row of the `content_items` table created by `create_content_index_db`
(`init_db.py`): `NULL`-able columns are `Option`.  The `last_indexed`
audit timestamp is not modelled. -/
structure IndexRow where
  id : Str
  file_path : Str
  title : Str
  content_type : Str
  status : Option Str
  created_date : Option Str
  updated_date : Option Str
  publish_date : Option Str
  author : Option Str
  client : Option Str
  url : Option Str
  description : Option Str
  categories_json : Option Str
  tags_json : Option Str
  custom_fields_json : Option Str
  body_preview : Option Str
deriving DecidableEq

/-- one row of the `content_fts` FTS5 table. -/
structure FtsRow where
  id : Str
  title : Str
  description : Str
  body : Str
  tags : Str
deriving DecidableEq

/-- State of the SQLite index database: both tables, rows in rowid order. -/
structure DbState where
  content_items : List IndexRow
  content_fts : List FtsRow
deriving DecidableEq

/-- Join with single spaces, as in `' '.join(content.tags)`. -/
def joinSpace : List Str → Str
  | [] => []
  | [x] => x
  | x :: y :: tl => x ++ ' ' :: joinSpace (y :: tl)

/-- the `content_items` row written by `index_content_item`'s first INSERT.
The INSERT names neither the `client` nor the `body_preview` column, so both
are `NULL`; the JSON columns hold `json.dumps` of the respective fields. -/
def indexRowOf (c : ContentItem) : IndexRow :=
  { id := c.id
    file_path := c.file_path
    title := c.title
    content_type := c.content_type
    status := some c.status
    created_date := some c.created_date
    updated_date := some c.updated_date
    publish_date := c.publish_date
    author := c.author
    client := none
    url := c.url
    description := c.description
    categories_json := some (dumpStrArr c.categories)
    tags_json := some (dumpStrArr c.tags)
    custom_fields_json := some (jsonDump (.obj c.custom_fields))
    body_preview := none }

/-- the `content_fts` row written by `index_content_item`'s second INSERT:
`(id, title, description or '', body or '', ' '.join(tags))`. -/
def ftsRowOf (c : ContentItem) : FtsRow :=
  { id := c.id
    title := c.title
    description := c.description.getD []
    body := c.body
    tags := joinSpace c.tags }

/-- `INSERT OR REPLACE INTO content_items`: rows conflicting on the `id`
primary key or the `UNIQUE file_path` column are deleted, the new row is
appended with a fresh rowid. -/
def upsertScalarRow (r : IndexRow) (rows : List IndexRow) : List IndexRow :=
  (rows.filter (fun x => !(x.id == r.id || x.file_path == r.file_path))) ++ [r]

/-- `INSERT OR REPLACE INTO content_fts`: the FTS5 table declares no
uniqueness constraint and the statement supplies no rowid, so this is a plain
insert of a fresh row. -/
def insertFtsRow (fr : FtsRow) (rows : List FtsRow) : List FtsRow :=
  rows ++ [fr]

/-- Net effect of a completed `index_content_item(content)` call on the
database. -/
def indexContentItem (c : ContentItem) (db : DbState) : DbState :=
  { content_items := upsertScalarRow (indexRowOf c) db.content_items
    content_fts := insertFtsRow (ftsRowOf c) db.content_fts }

/-- SQLite connection state inside `index_content_item`: the committed
database visible to other connections, and the uncommitted transaction
state of this connection. -/
structure TxState where
  committed : DbState
  pending : DbState
deriving DecidableEq

/-- Opening the connection: nothing pending. -/
def txBegin (db : DbState) : TxState := ⟨db, db⟩

/-- the first `cursor.execute` (scalar upsert), visible only to this
transaction until commit. -/
def txExecScalar (c : ContentItem) (s : TxState) : TxState :=
  { s with pending :=
      { s.pending with
        content_items := upsertScalarRow (indexRowOf c) s.pending.content_items } }

/-- the second `cursor.execute` (FTS insert), also uncommitted. -/
def txExecFts (c : ContentItem) (s : TxState) : TxState :=
  { s with pending :=
      { s.pending with
        content_fts := insertFtsRow (ftsRowOf c) s.pending.content_fts } }

/-- `conn.commit()` publishes the pending state. -/
def txCommit (s : TxState) : TxState := { s with committed := s.pending }

/-- the three steps `index_content_item` performs inside its try block, in
program order.  `conn.close()` without commit (the `finally` on an exception
path) discards `pending`, leaving `committed` untouched. -/
def indexSteps (c : ContentItem) : List (TxState → TxState) :=
  [txExecScalar c, txExecFts c, txCommit]

/-- Run a prefix of the step list; stopping early models an exception thrown
at that point. -/
def runSteps (steps : List (TxState → TxState)) (s : TxState) : TxState :=
  steps.foldl (fun st f => f st) s

/-- Lexicographic byte order on text, as SQLite's default BINARY collation
compares TEXT values. -/
def strLeB : Str → Str → Bool
  | [], _ => true
  | _ :: _, [] => false
  | a :: as, b :: bs =>
      if a.toNat < b.toNat then true
      else if b.toNat < a.toNat then false
      else strLeB as bs

theorem strLeB_total (a b : Str) : strLeB a b = true ∨ strLeB b a = true := by
  induction a generalizing b with
  | nil => left; rfl
  | cons x as ih =>
    cases b with
    | nil => right; rfl
    | cons y bs =>
      by_cases h1 : x.toNat < y.toNat
      · left; simp [strLeB, h1]
      · by_cases h2 : y.toNat < x.toNat
        · right; simp [strLeB, h2]
        · have hx : ¬ x.toNat < y.toNat := h1
          rcases ih bs with h | h
          · left; simp [strLeB, hx, h2, h]
          · right; simp [strLeB, hx, h2, h]

theorem strLeB_trans (a b c : Str) (h1 : strLeB a b = true)
    (h2 : strLeB b c = true) : strLeB a c = true := by
  induction a generalizing b c with
  | nil => rfl
  | cons x as ih =>
    cases b with
    | nil => simp [strLeB] at h1
    | cons y bs =>
      cases c with
      | nil => simp [strLeB] at h2
      | cons z cs =>
        simp only [strLeB] at h1 h2 ⊢
        by_cases hxy : x.toNat < y.toNat
        · by_cases hyz : y.toNat < z.toNat
          · rw [if_pos (by omega)]
          · rw [if_neg hyz] at h2
            by_cases hzy : z.toNat < y.toNat
            · simp [hzy] at h2
            · rw [if_pos (by omega)]
        · rw [if_neg hxy] at h1
          by_cases hyx : y.toNat < x.toNat
          · simp [hyx] at h1
          · rw [if_neg hyx] at h1
            by_cases hyz : y.toNat < z.toNat
            · rw [if_pos (by omega)]
            · rw [if_neg hyz] at h2
              by_cases hzy : z.toNat < y.toNat
              · simp [hzy] at h2
              · rw [if_neg hzy] at h2
                rw [if_neg (by omega), if_neg (by omega)]
                exact ih bs cs h1 h2

/-- `NULL`-aware comparison of `updated_date` keys: with `ORDER BY ... DESC`
SQLite puts `NULL`s last, i.e. `NULL` is the smallest key. -/
def optDateLeB : Option Str → Option Str → Bool
  | none, _ => true
  | some _, none => false
  | some a, some b => strLeB a b

theorem optDateLeB_total (a b : Option Str) :
    optDateLeB a b = true ∨ optDateLeB b a = true := by
  cases a with
  | none => left; rfl
  | some x =>
    cases b with
    | none => right; rfl
    | some y => exact strLeB_total x y

theorem optDateLeB_trans (a b c : Option Str) (h1 : optDateLeB a b = true)
    (h2 : optDateLeB b c = true) : optDateLeB a c = true := by
  cases a with
  | none => rfl
  | some x =>
    cases b with
    | none => simp [optDateLeB] at h1
    | some y =>
      cases c with
      | none => simp [optDateLeB] at h2
      | some z => exact strLeB_trans x y z h1 h2

/-- the result order of `ORDER BY updated_date DESC`: `a` may come before `b`
when `b`'s key is at most `a`'s.  Rows with equal keys keep their table
order (the deterministic order SQLite produces for a fixed table state and
query plan). -/
def rowOrd (a b : IndexRow) : Prop :=
  optDateLeB b.updated_date a.updated_date = true

instance : DecidableRel rowOrd :=
  fun a b => instDecidableEqBool (optDateLeB b.updated_date a.updated_date) true

instance : IsTotal IndexRow rowOrd :=
  ⟨fun a b => optDateLeB_total b.updated_date a.updated_date⟩

instance : IsTrans IndexRow rowOrd :=
  ⟨fun a b c h1 h2 => optDateLeB_trans c.updated_date b.updated_date
    a.updated_date h2 h1⟩

/-- the optional filter arguments of `search_content` (limit and offset are
passed separately). -/
structure SearchFilters where
  query : Option Str := none
  content_types : Option (List Str) := none
  statuses : Option (List Str) := none
  tags : Option (List Str) := none
  client : Option Str := none
  date_from : Option Str := none
  date_to : Option Str := none
deriving DecidableEq

/-- Alphanumeric-run tokenizer with case folding.  Models the term extraction
of SQLite's FTS5 default tokenizer for the simple queries the service
forwards; `cur` accumulates the current token in reverse. -/
def ftsTokensAux (cur : Str) : Str → List Str
  | [] => if cur.isEmpty then [] else [cur.reverse.map charFold]
  | c :: r =>
      if (48 ≤ c.toNat ∧ c.toNat ≤ 57) ∨ (65 ≤ c.toNat ∧ c.toNat ≤ 90) ∨
          (97 ≤ c.toNat ∧ c.toNat ≤ 122) then
        ftsTokensAux (c :: cur) r
      else if cur.isEmpty then ftsTokensAux [] r
      else cur.reverse.map charFold :: ftsTokensAux [] r

/-- Tokens of a text. -/
def ftsTokens (s : Str) : List Str := ftsTokensAux [] s

/-- Searchable text of one FTS row (title, description, body and tags). -/
def ftsRowText (fr : FtsRow) : Str :=
  fr.title ++ ' ' :: (fr.description ++ ' ' :: (fr.body ++ ' ' :: fr.tags))

/-- Model of `content_fts MATCH ?` for plain term queries: every token of the
query occurs as a token of the row's indexed text. -/
def ftsMatch (q : Str) (fr : FtsRow) : Bool :=
  (ftsTokens q).all (fun t => (ftsTokens (ftsRowText fr)).contains t)

/-- the `if query:` branch: a present, non-empty query restricts rows to ids
matched in `content_fts`; `None` and the empty string add no condition. -/
def condQuery (fts : List FtsRow) (q : Option Str) (r : IndexRow) : Bool :=
  match q with
  | none => true
  | some s =>
      if s.isEmpty then true
      else fts.any (fun fr => fr.id == r.id && ftsMatch s fr)

/-- the `if content_types:` / `if statuses:` branches: `col IN (...)` when
the argument list is truthy; a `NULL` column never satisfies `IN`. -/
def condIn (sel : Option (List Str)) (v : Option Str) : Bool :=
  match sel with
  | none => true
  | some l =>
      if l.isEmpty then true
      else
        match v with
        | some x => l.contains x
        | none => false

/-- the `if tags:` branch: OR of `tags_json LIKE '%"{tag}"%'` over the
requested tags; `LIKE` on a `NULL` blob is not satisfied. -/
def condTags (sel : Option (List Str)) (r : IndexRow) : Bool :=
  match sel with
  | none => true
  | some l =>
      if l.isEmpty then true
      else
        match r.tags_json with
        | some b => l.any (fun t => sqlLike (tagLikePattern t) b)
        | none => false

/-- the `LIKE` pattern `f-string %"client": "{client}"%` built by the
`if client:` branch. -/
def clientLikePattern (c : Str) : Str :=
  '%' :: '"' :: (chars "client" ++ '"' :: ':' :: ' ' :: '"' :: (c ++ ['"', '%']))

/-- the `if client:` branch: substring match of the serialized
`custom_fields_json` blob — the dedicated `client` column is not consulted. -/
def condClient (sel : Option Str) (r : IndexRow) : Bool :=
  match sel with
  | none => true
  | some c =>
      if c.isEmpty then true
      else
        match r.custom_fields_json with
        | some b => sqlLike (clientLikePattern c) b
        | none => false

/-- the `if date_from:` branch: `created_date >= ?` under SQLite's TEXT
collation (lexicographic). -/
def condDateFrom (sel : Option Str) (r : IndexRow) : Bool :=
  match sel with
  | none => true
  | some d =>
      if d.isEmpty then true
      else
        match r.created_date with
        | some cd => strLeB d cd
        | none => false

/-- the `if date_to:` branch: `created_date <= ?`. -/
def condDateTo (sel : Option Str) (r : IndexRow) : Bool :=
  match sel with
  | none => true
  | some d =>
      if d.isEmpty then true
      else
        match r.created_date with
        | some cd => strLeB cd d
        | none => false

/-- Conjunction of all WHERE conditions `search_content` appends to
`WHERE 1=1`; the same predicate backs the data query and the COUNT query. -/
def matchesFilters (fts : List FtsRow) (f : SearchFilters) (r : IndexRow) : Bool :=
  condQuery fts f.query r &&
  condIn f.content_types (some r.content_type) &&
  condIn f.statuses r.status &&
  condTags f.tags r &&
  condClient f.client r &&
  condDateFrom f.date_from r &&
  condDateTo f.date_to r

/-- Gregorian leap year. -/
def isLeapYear (y : Nat) : Bool :=
  (y % 4 == 0 && y % 100 != 0) || y % 400 == 0

/-- Days of a month. -/
def daysInMonth (y m : Nat) : Nat :=
  if m = 2 then (if isLeapYear y then 29 else 28)
  else if m = 4 ∨ m = 6 ∨ m = 9 ∨ m = 11 then 30
  else 31

/-- Model of `date.fromisoformat` on `YYYY-MM-DD` input: validates the shape
and the calendar and returns the date (kept as its ISO string). -/
def parseIsoDate (s : Str) : Option Str :=
  match s with
  | [y1, y2, y3, y4, '-', m1, m2, '-', d1, d2] =>
      if ([y1, y2, y3, y4, m1, m2, d1, d2]).all
          (fun c => 48 ≤ c.toNat && c.toNat ≤ 57) then
        let y := (y1.toNat - 48) * 1000 + (y2.toNat - 48) * 100 +
          (y3.toNat - 48) * 10 + (y4.toNat - 48)
        let m := (m1.toNat - 48) * 10 + (m2.toNat - 48)
        let d := (d1.toNat - 48) * 10 + (d2.toNat - 48)
        if 1 ≤ m ∧ m ≤ 12 ∧ 1 ≤ d ∧ d ≤ daysInMonth y m then some s else none
      else none
  | _ => none

/-- View of a JSON value as a list of strings (pydantic `List[str]`). -/
def jsonListStrs : JsonList → Option (List Str)
  | .nil => some []
  | .cons (.str s) tl => (jsonListStrs tl).map (fun l => s :: l)
  | .cons _ _ => none

/-- `json.loads` of a list-of-strings column followed by the pydantic
`List[str]` validation. -/
def jsonStrList : Json → Option (List Str)
  | .arr a => jsonListStrs a
  | _ => none

/-- View of a JSON value as an object (pydantic `Dict[str, Any]`). -/
def jsonObjFields : Json → Option JsonObjList
  | .obj o => some o
  | _ => none

/-- `json.loads(blob) if blob else []` plus list-of-strings validation: a
`NULL` or empty blob yields `[]`, a malformed one fails. -/
def loadStrListBlob : Option Str → Option (List Str)
  | none => some []
  | some b => if b.isEmpty then some [] else (jsonLoads b).bind jsonStrList

/-- `json.loads(blob) if blob else {}` plus object validation. -/
def loadObjBlob : Option Str → Option JsonObjList
  | none => some JsonObjList.nil
  | some b =>
      if b.isEmpty then some JsonObjList.nil
      else (jsonLoads b).bind jsonObjFields

/-- Violation check of a pydantic `max_length` constraint on an optional
string field. -/
def optTooLong (v : Option Str) (n : Nat) : Bool :=
  match v with
  | some s => n < s.length
  | none => false

/-- Hydration of one fetched row into a `ContentResponse`, i.e. the body of
`search_content`'s per-row `try` block: JSON columns are parsed, date columns
validated (`NULL`/empty fall back to `date.today()`), and pydantic's length
constraints checked; any failure drops the row (`except: continue`).
Search results carry no body, so `body` is pydantic's default `""`. -/
def parseRow (today : Str) (r : IndexRow) : Option ContentItem := do
  let cats ← loadStrListBlob r.categories_json
  let tags ← loadStrListBlob r.tags_json
  let cf ← loadObjBlob r.custom_fields_json
  let created ←
    match r.created_date with
    | none => some today
    | some s => if s.isEmpty then some today else parseIsoDate s
  let updated ←
    match r.updated_date with
    | none => some today
    | some s => if s.isEmpty then some today else parseIsoDate s
  let publish ←
    match r.publish_date with
    | none => some none
    | some s =>
        if s.isEmpty then some none else (parseIsoDate s).map some
  let status ← r.status
  if r.title.length = 0 ∨ 500 < r.title.length then none
  else if optTooLong r.description 2000 then none
  else if optTooLong r.author 200 then none
  else if optTooLong r.url 1000 then none
  else
    some { id := r.id
           file_path := r.file_path
           title := r.title
           content_type := r.content_type
           status := status
           created_date := created
           updated_date := updated
           publish_date := publish
           author := r.author
           url := r.url
           description := r.description
           categories := cats
           tags := tags
           custom_fields := cf
           body := [] }

/-- Model of `search_content(...)`: filter the scalar table, count before
pagination, sort by `updated_date DESC` (deterministically for the fixed
table state), slice with `LIMIT ? OFFSET ?`, then hydrate rows, dropping the
unparseable ones.  Returns `(items, total)`. -/
def searchContent (f : SearchFilters) (limit offset : Nat) (today : Str)
    (db : DbState) : List ContentItem × Nat :=
  let m := db.content_items.filter (matchesFilters db.content_fts f)
  let sorted := List.insertionSort rowOrd m
  (((sorted.drop offset).take limit).filterMap (parseRow today), m.length)

/-- the matching rows in result order, before any pagination. -/
def sortedMatches (f : SearchFilters) (db : DbState) : List IndexRow :=
  List.insertionSort rowOrd (db.content_items.filter (matchesFilters db.content_fts f))

/-- the unpaginated result list for a filter: every matching row in result
order, hydrated. -/
def searchUnpaginated (f : SearchFilters) (today : Str) (db : DbState) :
    List ContentItem :=
  (sortedMatches f db).filterMap (parseRow today)

/-- YAML front-matter scalar values as written by the services: a string (a
date is its ISO string), `null`, a list of strings, or an open mapping. -/
inductive MetaVal where
  | s (v : Str)
  | vnull
  | slist (l : List Str)
  | vobj (o : JsonObjList)
deriving DecidableEq

/-- Contents of one markdown file: parsed front-matter plus body, or a file
whose front-matter block is malformed (`read_content_file` raises on it). -/
inductive FileData where
  | doc (meta : List (Str × MetaVal)) (body : Str)
  | malformed
deriving DecidableEq

/-- the content library on disk: `.md` files by absolute path. -/
abbrev FileSys := List (Str × FileData)

/-- Write (create or overwrite) a file. -/
def fsWrite (path : Str) (d : FileData) : FileSys → FileSys
  | [] => [(path, d)]
  | (p, v) :: tl => if p == path then (p, d) :: tl else (p, v) :: fsWrite path d tl

/-- Lookup of a file by path. -/
def fsLookup (path : Str) (fs : FileSys) : Option FileData := fs.lookup path

/-- `settings.CONTENT_LIBRARY_PATH` default. -/
def contentLibraryPath : Str := chars "/app/content_library"

/-- `_get_content_file_path(content_id, content_type)`:
`CONTENT_LIBRARY_PATH / content_type / {content_id}.md`. -/
def contentFilePath (contentId ctype : Str) : Str :=
  contentLibraryPath ++ '/' :: (ctype ++ '/' :: (contentId ++ chars ".md"))

/-- the content-type subdirectories `get_content_item` probes — the same
seven directories `ensure_directories` creates. -/
def defaultContentTypes : List Str :=
  [chars "blog", chars "video", chars "podcast", chars "social",
   chars "research", chars "content-plans", chars "website-content"]

/-- Model of pydantic `ContentCreate` (defaults as in `models/content.py`). -/
structure ContentCreate where
  title : Str
  content_type : Str
  status : Str := chars "draft"
  description : Option Str := none
  author : Option Str := none
  url : Option Str := none
  publish_date : Option Str := none
  categories : List Str := []
  tags : List Str := []
  custom_fields : JsonObjList := .nil
  body : Str := []
deriving DecidableEq

/-- Model of pydantic `ContentUpdate`: `some v` is a provided field,
`none` an omitted one (`model_dump(exclude_unset=True)` drops it). -/
structure ContentUpdate where
  title : Option Str := none
  content_type : Option Str := none
  status : Option Str := none
  description : Option Str := none
  author : Option Str := none
  url : Option Str := none
  publish_date : Option Str := none
  categories : Option (List Str) := none
  tags : Option (List Str) := none
  custom_fields : Option JsonObjList := none
  body : Option Str := none
deriving DecidableEq

/-- Optional string field of the front-matter dict. -/
def optMV : Option Str → MetaVal
  | some v => .s v
  | none => .vnull

/-- the front-matter dict `create_content_item` writes. -/
def frontmatterOfCreate (contentId today : Str) (c : ContentCreate) :
    List (Str × MetaVal) :=
  [(chars "id", .s contentId),
   (chars "title", .s c.title),
   (chars "content_type", .s c.content_type),
   (chars "status", .s c.status),
   (chars "created_date", .s today),
   (chars "updated_date", .s today),
   (chars "publish_date", optMV c.publish_date),
   (chars "author", optMV c.author),
   (chars "url", optMV c.url),
   (chars "description", optMV c.description),
   (chars "categories", .slist c.categories),
   (chars "tags", .slist c.tags),
   (chars "custom_fields", .vobj c.custom_fields)]

/-- Model of `create_content_item`: the generated `uuid4` and `date.today()`
are the explicit `contentId` / `today` arguments.  Returns the written file
system and the `ContentResponse` produced; the subsequent
`search_service.index_content_item(result)` call is `indexContentItem` on the
index state. -/
def createContentItem (contentId today : Str) (c : ContentCreate)
    (fs : FileSys) : FileSys × ContentItem :=
  let path := contentFilePath contentId c.content_type
  (fsWrite path (.doc (frontmatterOfCreate contentId today c) c.body) fs,
   { id := contentId
     file_path := path
     title := c.title
     content_type := c.content_type
     status := c.status
     created_date := today
     updated_date := today
     publish_date := c.publish_date
     author := c.author
     url := c.url
     description := c.description
     categories := c.categories
     tags := c.tags
     custom_fields := c.custom_fields
     body := c.body })

/-- Front-matter dict lookup. -/
def metaLookup (m : List (Str × MetaVal)) (k : Str) : Option MetaVal :=
  m.lookup k

/-- Required string-valued key (pydantic: a missing or non-string value is a
validation error). -/
def reqStr (m : List (Str × MetaVal)) (k : Str) : Option Str :=
  match metaLookup m k with
  | some (.s v) => some v
  | _ => none

/-- Optional string-valued key: absent or `null` is `None`. -/
def optStrF (m : List (Str × MetaVal)) (k : Str) : Option (Option Str) :=
  match metaLookup m k with
  | some (.s v) => some (some v)
  | some .vnull => some none
  | none => some none
  | _ => none

/-- the shared conversion both `get_content_item` and the rebuild perform on
a read front-matter dict: ISO date strings become dates, then
`ContentResponse(file_path=..., **data)` validates and builds the item.  Any
failure is `none` (an exception in the source). -/
def itemFromDoc (path : Str) (meta : List (Str × MetaVal)) (body : Str) :
    Option ContentItem :=
  match reqStr meta (chars "id") with
  | none => none
  | some id =>
  match reqStr meta (chars "title") with
  | none => none
  | some title =>
  match reqStr meta (chars "content_type") with
  | none => none
  | some ct =>
  match (match metaLookup meta (chars "status") with
         | some (.s v) => some v
         | none => some (chars "draft")
         | _ => none) with
  | none => none
  | some status =>
  match (match metaLookup meta (chars "created_date") with
         | some (.s v) => parseIsoDate v
         | _ => none) with
  | none => none
  | some created =>
  match (match metaLookup meta (chars "updated_date") with
         | some (.s v) => parseIsoDate v
         | _ => none) with
  | none => none
  | some updated =>
  match (match metaLookup meta (chars "publish_date") with
         | some (.s v) => (parseIsoDate v).map some
         | some .vnull => some none
         | none => some none
         | _ => none) with
  | none => none
  | some publish =>
  match optStrF meta (chars "author") with
  | none => none
  | some author =>
  match optStrF meta (chars "url") with
  | none => none
  | some url =>
  match optStrF meta (chars "description") with
  | none => none
  | some descr =>
  match (match metaLookup meta (chars "categories") with
         | some (.slist l) => some l
         | none => some []
         | _ => none) with
  | none => none
  | some cats =>
  match (match metaLookup meta (chars "tags") with
         | some (.slist l) => some l
         | none => some []
         | _ => none) with
  | none => none
  | some tags =>
  match (match metaLookup meta (chars "custom_fields") with
         | some (.vobj o) => some o
         | none => some JsonObjList.nil
         | _ => none) with
  | none => none
  | some cf =>
  if title.length = 0 ∨ 500 < title.length then none
  else if optTooLong descr 2000 then none
  else if optTooLong author 200 then none
  else if optTooLong url 1000 then none
  else
    some { id := id
           file_path := path
           title := title
           content_type := ct
           status := status
           created_date := created
           updated_date := updated
           publish_date := publish
           author := author
           url := url
           description := descr
           categories := cats
           tags := tags
           custom_fields := cf
           body := body }

/-- Outcome of `get_content_item`: missing everywhere, a raised read/parse
error, or the full item. -/
inductive GetResult where
  | notFound
  | err
  | found (item : ContentItem)
deriving DecidableEq

/-- the probe loop of `get_content_item` over a list of content types. -/
def getContentItemAux (contentId : Str) (fs : FileSys) :
    List Str → GetResult
  | [] => .notFound
  | ct :: rest =>
      match fsLookup (contentFilePath contentId ct) fs with
      | none => getContentItemAux contentId fs rest
      | some .malformed => .err
      | some (.doc meta body) =>
          match itemFromDoc (contentFilePath contentId ct) meta body with
          | some it => .found it
          | none => .err

/-- Model of `get_content_item(content_id)`: probes the hard-coded list of
content-type subdirectories for `{content_id}.md` and returns the first hit;
`None` when no probed path exists. -/
def getContentItem (contentId : Str) (fs : FileSys) : GetResult :=
  getContentItemAux contentId fs defaultContentTypes

/-- Python dict update: an existing key is updated in place, a new one
appended. -/
def metaSet (k : Str) (v : MetaVal) : List (Str × MetaVal) → List (Str × MetaVal)
  | [] => [(k, v)]
  | (k2, v2) :: tl =>
      if k2 == k then (k2, v) :: tl else (k2, v2) :: metaSet k v tl

/-- `data[key] = value` for a provided optional string field. -/
def updS (k : Str) (o : Option Str) (m : List (Str × MetaVal)) :
    List (Str × MetaVal) :=
  match o with
  | some v => metaSet k (.s v) m
  | none => m

/-- `data[key] = value` for a provided list field. -/
def updSlist (k : Str) (o : Option (List Str)) (m : List (Str × MetaVal)) :
    List (Str × MetaVal) :=
  match o with
  | some v => metaSet k (.slist v) m
  | none => m

/-- `data[key] = value` for a provided mapping field. -/
def updObj (k : Str) (o : Option JsonObjList) (m : List (Str × MetaVal)) :
    List (Str × MetaVal) :=
  match o with
  | some v => metaSet k (.vobj v) m
  | none => m

/-- Application of `update_dict` to the read front-matter, in field order,
followed by `data['updated_date'] = date.today().isoformat()`; the body is
replaced when provided. -/
def applyUpdates (meta : List (Str × MetaVal)) (body : Str)
    (u : ContentUpdate) (today : Str) : List (Str × MetaVal) × Str :=
  (metaSet (chars "updated_date") (.s today)
    (updObj (chars "custom_fields") u.custom_fields
      (updSlist (chars "tags") u.tags
        (updSlist (chars "categories") u.categories
          (updS (chars "publish_date") u.publish_date
            (updS (chars "url") u.url
              (updS (chars "author") u.author
                (updS (chars "description") u.description
                  (updS (chars "status") u.status
                    (updS (chars "content_type") u.content_type
                      (updS (chars "title") u.title meta)))))))))),
   u.body.getD body)

/-- Model of `update_content_item`: locate the item, re-read its file, apply
the provided fields, write back to `existing.file_path` (the path is NOT
recomputed), and rebuild the response.  `none` models the `None` return on a
missing id (a read error also changes nothing); the inner `Option` is the
`ContentResponse` construction, which may itself fail after the write. -/
def updateContentItem (contentId : Str) (u : ContentUpdate) (today : Str)
    (fs : FileSys) : Option (FileSys × Option ContentItem) :=
  match getContentItem contentId fs with
  | .notFound => none
  | .err => none
  | .found existing =>
      match fsLookup existing.file_path fs with
      | some (.doc meta body) =>
          let mb := applyUpdates meta body u today
          some (fsWrite existing.file_path (.doc mb.1 mb.2) fs,
            itemFromDoc existing.file_path mb.1 mb.2)
      | _ => none

/-- Per-file work of the rebuild scan: `read_content_file` plus the date
conversion plus `ContentResponse(file_path=str(md_file), **data)`. -/
def parseFileToItem (path : Str) (fd : FileData) : Option ContentItem :=
  match fd with
  | .malformed => none
  | .doc meta body => itemFromDoc path meta body

/-- Model of `rebuild_index_from_files()`: clear both tables, then walk every
file of the library (in scan order), upserting each parseable one and
counting it; files that fail to parse are skipped.  Returns the final index
state and the count. -/
def rebuildIndexFromFiles (fs : FileSys) (_db : DbState) : DbState × Nat :=
  fs.foldl
    (fun acc pf =>
      match parseFileToItem pf.1 pf.2 with
      | some it => (indexContentItem it acc.1, acc.2 + 1)
      | none => acc)
    ((⟨[], []⟩ : DbState), 0)

/-- Whitespace in the sense of Python's `str.strip()`. -/
def isPySpace (c : Char) : Bool :=
  c = ' ' ∨ c = '\t' ∨ c = '\n' ∨ c = '\r' ∨ c.toNat = 11 ∨ c.toNat = 12

/-- Python `str.strip()`: drop whitespace from both ends. -/
def pyStrip (s : Str) : Str :=
  ((s.dropWhile isPySpace).reverse.dropWhile isPySpace).reverse

/-- Leftmost split at one occurrence of `sep`: `some (before, after)`, or
`none` when `sep` does not occur. -/
def splitOnce (sep : Str) : Str → Option (Str × Str)
  | [] => if sep.isEmpty then some ([], []) else none
  | c :: r =>
      if sep.isPrefixOf (c :: r) then some ([], (c :: r).drop sep.length)
      else (splitOnce sep r).map (fun p => (c :: p.1, p.2))

/-- Python `s.split(sep, 2)`: at most two splits, leftmost first. -/
def pySplit2 (sep s : Str) : List Str :=
  match splitOnce sep s with
  | none => [s]
  | some (a, r) =>
      match splitOnce sep r with
      | none => [a, r]
      | some (b, r2) => [a, b, r2]

/-- one `key: value` line of a dumped block mapping. -/
def metaLine (kv : Str × Str) : Str :=
  kv.1 ++ ':' :: ' ' :: (kv.2 ++ ['\n'])

/-- Model of `yaml.dump` restricted to the plain fragment: one `key: value`
line per entry (PyYAML's block style for plain string scalars), `{}` for the
empty mapping. -/
def yamlDumpPlain (m : List (Str × Str)) : Str :=
  match m with
  | [] => chars "\x7b\x7d\n"
  | _ => (m.map metaLine).flatten

/-- Split a text into lines at `'\n'`. -/
def splitLines : Str → List Str
  | [] => [[]]
  | c :: r =>
      if c = '\n' then [] :: splitLines r
      else
        match splitLines r with
        | [] => [[c]]
        | l :: ls => (c :: l) :: ls

/-- Parse the lines of a plain block mapping. -/
def loadLines : List Str → Option (List (Str × Str))
  | [] => some []
  | l :: ls => do
      let p ← splitOnce (chars ": ") l
      let rest ← loadLines ls
      some ((p.1, p.2) :: rest)

/-- Model of `yaml.safe_load` on the plain fragment: blank input is an empty
mapping (the `or {}` in the caller), `{}` is the empty mapping, otherwise
every non-blank line must be a `key: value` pair; anything else is a parse
error. -/
def yamlLoadPlain (s : Str) : Option (List (Str × Str)) :=
  let ls := (splitLines s).filter (fun l => !(l.all isPySpace))
  if ls == [chars "\x7b\x7d"] then some [] else loadLines ls

/-- Model of `write_content_file` at the text level: date values are already
ISO strings in the model (so the `isoformat()` normalization is the
identity), and the file content is
`f"---\n{frontmatter_yaml}---\n\n{body}"`. -/
def writeContentFile (frontmatter : List (Str × Str)) (body : Str) : Str :=
  chars "---\n" ++ (yamlDumpPlain frontmatter ++ (chars "---\n\n" ++ body))

/-- Model of `read_content_file` at the text level: when the content starts
with `---` and splits into at least three parts on `---`, the second part is
the front-matter (`safe_load ... or {}`) and the third, stripped, the body;
otherwise the whole content is the body with empty metadata.  `none` is a
raised parse error. -/
def readContentFile (content : Str) : Option (List (Str × Str) × Str) :=
  if (chars "---").isPrefixOf content then
    match pySplit2 (chars "---") content with
    | [_, p1, p2] => (yamlLoadPlain p1).map (fun fm => (fm, pyStrip p2))
    | _ => some ([], content)
  else some ([], content)

/-- an item whose `custom_fields` mapping contains `client: "X"`. -/
def exItemBlob : ContentItem :=
  { id := chars "item-1"
    file_path := chars "/app/content_library/blog/item-1.md"
    title := chars "Title"
    content_type := chars "blog"
    status := chars "draft"
    created_date := chars "2024-01-15"
    updated_date := chars "2024-01-15"
    publish_date := none
    author := none
    url := none
    description := none
    categories := []
    tags := []
    custom_fields := .cons (chars "client") (.str (chars "X")) .nil
    body := chars "b" }

/-- the shape of the `test_search_by_client` fixture as the code actually
stores it: `ContentResponse` has no `client` field, so the test's
`client="ClientA"` argument is dropped and `custom_fields` stays `{}`. -/
def exItemNoClient : ContentItem :=
  { id := chars "test-1"
    file_path := chars "/tmp/test1.md"
    title := chars "Client A Content"
    content_type := chars "blog"
    status := chars "published"
    created_date := chars "2024-01-15"
    updated_date := chars "2024-01-15"
    publish_date := none
    author := none
    url := none
    description := none
    categories := []
    tags := []
    custom_fields := .nil
    body := chars "Content for ClientA" }

/-- a `content_items` row as it would look after the `migrate_add_client`
backfill one day populates the dedicated column: `client` set, but
`custom_fields_json` without a client key. -/
def exRowClientCol : IndexRow :=
  { id := chars "item-2"
    file_path := chars "/app/content_library/blog/item-2.md"
    title := chars "Title2"
    content_type := chars "blog"
    status := some (chars "draft")
    created_date := some (chars "2024-01-15")
    updated_date := some (chars "2024-01-15")
    publish_date := none
    author := none
    client := some (chars "X")
    url := none
    description := none
    categories_json := some (chars "[]")
    tags_json := some (chars "[]")
    custom_fields_json := some (chars "\x7b\x7d")
    body_preview := none }

/-- C1: the claim is the spec's intent and the code contradicts it (and its
own tests): the indexer never writes the dedicated `client` column (it is
`NULL` on every row it produces), the client filter is a `LIKE` substring
match on `custom_fields_json` — a row whose blob holds `client: "X"` matches
although its dedicated column is `NULL`, a row whose dedicated column IS
`"X"` does not match — and on the repo's own `test_search_by_client` fixture
(client dropped by the model, `custom_fields = {}`) the filter returns total
0 where the test asserts 1. -/
theorem c1_client_filter_column_unused :
    (∀ c : ContentItem, (indexRowOf c).client = none) ∧
    condClient (some (chars "X")) (indexRowOf exItemBlob) = true ∧
    (indexRowOf exItemBlob).client = none ∧
    condClient (some (chars "X")) exRowClientCol = false ∧
    exRowClientCol.client = some (chars "X") ∧
    (searchContent { client := some (chars "ClientA") } 50 0
      (chars "2024-02-01") (indexContentItem exItemNoClient ⟨[], []⟩)).2 = 0 := by
  refine ⟨fun c => rfl, by decide, by decide, by decide, by decide, by decide⟩

/-- C10: a `some`-but-empty free-text query and empty filter lists behave
exactly like absent filters (each WHERE clause is appended only when the
Python argument is truthy), and filtering by an empty tag set alone returns
every row. -/
theorem c10_empty_filters_are_absent (f : SearchFilters) (limit offset : Nat)
    (today : Str) (db : DbState) :
    searchContent { f with query := some [] } limit offset today db =
      searchContent { f with query := none } limit offset today db ∧
    searchContent { f with content_types := some [] } limit offset today db =
      searchContent { f with content_types := none } limit offset today db ∧
    searchContent { f with statuses := some [] } limit offset today db =
      searchContent { f with statuses := none } limit offset today db ∧
    searchContent { f with tags := some [] } limit offset today db =
      searchContent { f with tags := none } limit offset today db ∧
    (searchContent { tags := some [] } limit offset today db).2 =
      db.content_items.length := by
  refine ⟨rfl, rfl, rfl, rfl, ?_⟩
  show (db.content_items.filter
    (matchesFilters db.content_fts { tags := some [] })).length = _
  have h : db.content_items.filter
      (matchesFilters db.content_fts { tags := some [] }) = db.content_items :=
    List.filter_eq_self.mpr (fun a _ => rfl)
  rw [h]

/-- C2: upsert is transactional.  Running any strict prefix of
`index_content_item`'s three steps (the two executes and the commit) — i.e.
failing with an exception at any point before the commit, after which the
connection is closed and the transaction rolled back — leaves the committed
database exactly as it was; only the commit itself publishes, and then both
tables carry the item's writes together.  In particular no observable state
has exactly one of the two tables updated for the item's id. -/
theorem c2_index_upsert_atomic (db : DbState) (c : ContentItem) (k : Nat) :
    (runSteps ((indexSteps c).take k) (txBegin db)).committed =
      (if k < 3 then db else indexContentItem c db) := by
  match k with
  | 0 => rfl
  | 1 => rfl
  | 2 => rfl
  | k + 3 =>
    rw [if_neg (by omega),
      List.take_of_length_le (by simp [indexSteps] : (indexSteps c).length ≤ k + 3)]
    rfl

/-- a row whose `tags_json` blob is not valid JSON: `search_content` counts
it in `total` but drops it from `items`. -/
def exRowCorrupt : IndexRow :=
  { id := chars "bad-1"
    file_path := chars "/app/content_library/blog/bad-1.md"
    title := chars "Broken"
    content_type := chars "blog"
    status := some (chars "draft")
    created_date := some (chars "2024-01-15")
    updated_date := some (chars "2024-01-16")
    publish_date := none
    author := none
    client := none
    url := none
    description := none
    categories_json := some (chars "[]")
    tags_json := some (chars "oops")
    custom_fields_json := some (chars "\x7b\x7d")
    body_preview := none }

/-- two-row index state, one parseable row and one with a corrupt JSON
blob. -/
def exDbCorrupt : DbState :=
  ⟨[indexRowOf exItemNoClient, exRowCorrupt], []⟩

/-- C9: `total` is the count of rows matching the filters before pagination —
it does not depend on `limit`/`offset` and equals the size of the filtered
table, unparseable rows included — while `items` is capped by `limit` and
drops rows whose JSON blobs fail to parse only after the slice is taken; on
the two-row example with a corrupt row, `total` is 2 but the first page of
size 2 holds a single item, fewer than `min limit (total - offset)`. -/
theorem c9_total_counts_unparseable_rows :
    (∀ (f : SearchFilters) (limit offset limit2 offset2 : Nat) (today : Str)
        (db : DbState),
      (searchContent f limit offset today db).2 =
        (searchContent f limit2 offset2 today db).2 ∧
      (searchContent f limit offset today db).2 =
        (db.content_items.filter (matchesFilters db.content_fts f)).length ∧
      (searchContent f limit offset today db).1.length ≤ limit) ∧
    (searchContent {} 2 0 (chars "2024-02-01") exDbCorrupt).2 = 2 ∧
    (searchContent {} 2 0 (chars "2024-02-01") exDbCorrupt).1.length = 1 ∧
    1 < min 2 ((searchContent {} 2 0 (chars "2024-02-01") exDbCorrupt).2 - 0) := by
  refine ⟨fun f limit offset limit2 offset2 today db => ⟨rfl, rfl, ?_⟩,
    by decide, by decide, by decide⟩
  exact le_trans (List.length_filterMap_le _ _) (List.length_take_le _ _)

/-- Parseable item with a given id and update date (used to populate small
example databases). -/
def mkItem (n upd : Str) : ContentItem :=
  { id := n
    file_path := chars "/app/content_library/blog/" ++ (n ++ chars ".md")
    title := chars "T"
    content_type := chars "blog"
    status := chars "draft"
    created_date := chars "2024-01-01"
    updated_date := upd
    publish_date := none
    author := none
    url := none
    description := none
    categories := []
    tags := []
    custom_fields := .nil
    body := [] }

/-- Five parseable rows with distinct update dates. -/
def exDb5 : DbState :=
  ⟨[indexRowOf (mkItem (chars "i1") (chars "2024-01-01")),
    indexRowOf (mkItem (chars "i2") (chars "2024-01-02")),
    indexRowOf (mkItem (chars "i3") (chars "2024-01-03")),
    indexRowOf (mkItem (chars "i4") (chars "2024-01-04")),
    indexRowOf (mkItem (chars "i5") (chars "2024-01-05"))], []⟩

/-- C3, counterexample: with five matching rows, concatenating the pages
`offset=0,limit=2` and `offset=2,limit=2` does not equal the unpaginated
result list (the fifth row is omitted), so the claim's universally quantified
pagination property fails as stated. -/
theorem c3_pages_ne_unpaginated :
    (searchContent {} 2 0 (chars "2024-02-01") exDb5).1 ++
        (searchContent {} 2 2 (chars "2024-02-01") exDb5).1 ≠
      searchUnpaginated {} (chars "2024-02-01") exDb5 := by decide

theorem filterMap_take_of_isSome {α β : Type} (p : α → Option β) :
    ∀ (l : List α) (n : Nat), (∀ x ∈ l, (p x).isSome) →
      (l.take n).filterMap p = (l.filterMap p).take n := by
  intro l
  induction l with
  | nil => intro n _; simp
  | cons x xs ih =>
    intro n h
    obtain ⟨v, hv⟩ := Option.isSome_iff_exists.mp (h x (by simp))
    cases n with
    | zero => simp
    | succ n =>
      simp only [List.take_succ_cons, List.filterMap_cons, hv]
      rw [ih n (fun y hy => h y (by simp [hy]))]

theorem length_filterMap_of_isSome {α β : Type} (p : α → Option β) :
    ∀ (l : List α), (∀ x ∈ l, (p x).isSome) →
      (l.filterMap p).length = l.length := by
  intro l
  induction l with
  | nil => intro _; simp
  | cons x xs ih =>
    intro h
    obtain ⟨v, hv⟩ := Option.isSome_iff_exists.mp (h x (by simp))
    simp only [List.filterMap_cons, hv, List.length_cons]
    rw [ih (fun y hy => h y (by simp [hy]))]

/-- C3, amended: for every fixed filter and fixed index contents the result
order is `updated_date` descending with ties resolved deterministically, and
concatenating the pages `offset=0,limit=2` and `offset=2,limit=2` equals the
hydration (parse-or-drop) of the first four rows in that order, hence an
initial segment of the unpaginated result list; when additionally every
matching row hydrates, the concatenation equals the first `min 4 total`
entries of the unpaginated result list, and it equals the whole unpaginated
list if and only if `total ≤ 4`. -/
theorem c3_pages_are_initial_segment (f : SearchFilters) (today : Str) (db : DbState) :
    List.Pairwise rowOrd (sortedMatches f db) ∧
    (searchContent f 2 0 today db).1 ++ (searchContent f 2 2 today db).1 =
      ((sortedMatches f db).take 4).filterMap (parseRow today) ∧
    ((searchContent f 2 0 today db).1 ++ (searchContent f 2 2 today db).1) <+:
      searchUnpaginated f today db ∧
    ((∀ r ∈ sortedMatches f db, (parseRow today r).isSome) →
      ((searchContent f 2 0 today db).1 ++ (searchContent f 2 2 today db).1 =
        (searchUnpaginated f today db).take
          (min 4 (searchContent f 2 0 today db).2)) ∧
      ((searchContent f 2 0 today db).1 ++ (searchContent f 2 2 today db).1 =
          searchUnpaginated f today db ↔
        (searchContent f 2 0 today db).2 ≤ 4)) := by
  have hpages : (searchContent f 2 0 today db).1 ++
      (searchContent f 2 2 today db).1 =
      ((sortedMatches f db).take 4).filterMap (parseRow today) := by
    show ((((sortedMatches f db).drop 0).take 2).filterMap (parseRow today)) ++
        ((((sortedMatches f db).drop 2).take 2).filterMap (parseRow today)) =
      ((sortedMatches f db).take 4).filterMap (parseRow today)
    rw [List.drop_zero, ← List.filterMap_append, ← List.take_add]
  have hpre : ((searchContent f 2 0 today db).1 ++
      (searchContent f 2 2 today db).1) <+:
      searchUnpaginated f today db := by
    rw [hpages]
    exact ⟨((sortedMatches f db).drop 4).filterMap (parseRow today), by
      rw [← List.filterMap_append, List.take_append_drop]; rfl⟩
  refine ⟨List.sorted_insertionSort rowOrd _, hpages, hpre, fun h => ?_⟩
  have hlen : (searchUnpaginated f today db).length =
      (searchContent f 2 0 today db).2 := by
    show ((sortedMatches f db).filterMap (parseRow today)).length =
      (db.content_items.filter (matchesFilters db.content_fts f)).length
    rw [length_filterMap_of_isSome (parseRow today) _ h]
    show (List.insertionSort rowOrd
        (db.content_items.filter (matchesFilters db.content_fts f))).length =
      (db.content_items.filter (matchesFilters db.content_fts f)).length
    exact (List.perm_insertionSort rowOrd _).length_eq
  have hfm : ((sortedMatches f db).take 4).filterMap (parseRow today) =
      ((sortedMatches f db).filterMap (parseRow today)).take 4 :=
    filterMap_take_of_isSome (parseRow today) (sortedMatches f db) 4 h
  have hpages4 : (searchContent f 2 0 today db).1 ++
      (searchContent f 2 2 today db).1 =
      (searchUnpaginated f today db).take 4 := by
    rw [hpages, hfm]
    rfl
  have htake : (searchUnpaginated f today db).take
      (min 4 (searchContent f 2 0 today db).2) =
      (searchUnpaginated f today db).take 4 := by
    rw [← hlen, ← List.take_take, List.take_length]
  refine ⟨by rw [htake]; exact hpages4, ?_, ?_⟩
  · intro heq
    rw [hpages4] at heq
    have hlt := congrArg List.length heq
    rw [List.length_take] at hlt
    rw [hlen] at hlt
    omega
  · intro hle
    rw [hpages4]
    exact List.take_of_length_le (by rw [hlen]; exact hle)

/-- Closed instantiation of `c3_pages_are_initial_segment` on the five-row
example: all rows hydrate, the page concatenation is the first `min 4 total`
entries, and with `total = 5` it differs from the unpaginated list. -/
theorem c3_pages_are_initial_segment_witness :
    (∀ r ∈ sortedMatches {} exDb5,
      (parseRow (chars "2024-02-01") r).isSome) ∧
    (searchContent {} 2 0 (chars "2024-02-01") exDb5).1 ++
        (searchContent {} 2 2 (chars "2024-02-01") exDb5).1 =
      (searchUnpaginated {} (chars "2024-02-01") exDb5).take
        (min 4 (searchContent {} 2 0 (chars "2024-02-01") exDb5).2) :=
  ⟨by decide,
   ((c3_pages_are_initial_segment {} (chars "2024-02-01")
      exDb5).2.2.2 (by decide)).1⟩

/-- an item whose single tag `azzb` collides with the `LIKE` wildcard in a
requested tag `a%b`. -/
def exItemTagged : ContentItem :=
  { mkItem (chars "w1") (chars "2024-01-01") with tags := [chars "azzb"] }

/-- C4, counterexample: requesting `tags=["a%b"]` matches the item tagged
`["azzb"]` — the `%` inside the requested tag acts as a `LIKE` wildcard in
the pattern `%"a%b"%` — although `a%b` is not a member of the row's tag
collection, refuting the claimed iff. -/
theorem c4_tag_wildcard_false_positive :
    (searchContent { tags := some [chars "a%b"] } 50 0 (chars "2024-02-01")
      (indexContentItem exItemTagged ⟨[], []⟩)).2 = 1 ∧
    (chars "a%b") ∉ exItemTagged.tags := ⟨by decide, by decide⟩

/-- the spec's four-item tag scenario: items tagged `{a}`, `{b}`, `{a,b}`
and `{}` with descending update dates. -/
def exItemTagA : ContentItem :=
  { mkItem (chars "t1") (chars "2024-01-04") with tags := [chars "a"] }

def exItemTagB : ContentItem :=
  { mkItem (chars "t2") (chars "2024-01-03") with tags := [chars "b"] }

def exItemTagAB : ContentItem :=
  { mkItem (chars "t3") (chars "2024-01-02") with
      tags := [chars "a", chars "b"] }

def exItemTagNone : ContentItem := mkItem (chars "t4") (chars "2024-01-01")

def exDbTags : DbState :=
  ⟨[indexRowOf exItemTagA, indexRowOf exItemTagB, indexRowOf exItemTagAB,
    indexRowOf exItemTagNone], []⟩

/-- C4, amended: for requested and stored tags made of plain characters
(lower-case letters and digits — no `LIKE` wildcards, no characters changed
by ASCII case folding, no JSON escapes), a row written by the indexer matches
the tags filter exactly when some requested tag is a member of its tag list
(OR semantics); and on the `{a}`, `{b}`, `{a,b}`, `{}` scenario, filtering by
`tags=[a,b]` returns exactly the three items containing `a` or `b`. -/
theorem c4_tag_or_membership :
    (∀ (T : List Str) (c : ContentItem), T ≠ [] →
      (∀ t ∈ T, plainStr t) → (∀ a ∈ c.tags, plainStr a) →
      (condTags (some T) (indexRowOf c) = true ↔ ∃ t ∈ T, t ∈ c.tags)) ∧
    (searchContent { tags := some [chars "a", chars "b"] } 50 0
      (chars "2024-02-01") exDbTags).2 = 3 ∧
    ((searchContent { tags := some [chars "a", chars "b"] } 50 0
      (chars "2024-02-01") exDbTags).1.map (fun it => it.id)) =
      [chars "t1", chars "t2", chars "t3"] := by
  refine ⟨?_, by decide, by decide⟩
  intro T c hne hT htags
  show (if T.isEmpty then true
    else T.any (fun t => sqlLike (tagLikePattern t) (dumpStrArr c.tags))) =
      true ↔ _
  rw [if_neg (by simp [hne]), List.any_eq_true]
  exact exists_congr fun t => and_congr_right fun ht' =>
    tagLike_mem_iff t c.tags (hT t ht') htags

/-- Closed instantiation of the amended tag-membership equivalence. -/
theorem c4_tag_or_membership_witness :
    condTags (some [chars "a"]) (indexRowOf exItemTagAB) = true ↔
      ∃ t ∈ [chars "a"], t ∈ exItemTagAB.tags :=
  c4_tag_or_membership.1 [chars "a"] exItemTagAB (by decide) (by decide)
    (by decide)

theorem metaLookup_metaSet_ne (k tgt : Str) (v : MetaVal)
    (m : List (Str × MetaVal)) (hne : tgt ≠ k) :
    metaLookup (metaSet k v m) tgt = metaLookup m tgt := by
  induction m with
  | nil =>
    show List.lookup tgt [(k, v)] = List.lookup tgt []
    have hb : (tgt == k) = false := beq_eq_false_iff_ne.mpr hne
    simp [List.lookup, hb]
  | cons hd tl ih =>
    obtain ⟨k3, v3⟩ := hd
    show List.lookup tgt (if (k3 == k) = true then (k3, v) :: tl
      else (k3, v3) :: metaSet k v tl) = List.lookup tgt ((k3, v3) :: tl)
    by_cases h3 : k3 = k
    · rw [if_pos (by simp [h3])]
      have ht : tgt ≠ k3 := fun he => hne (he.trans h3)
      have hb : (tgt == k3) = false := beq_eq_false_iff_ne.mpr ht
      simp [List.lookup, hb]
    · rw [if_neg (by simp [h3])]
      by_cases ht : tgt = k3
      · have hb : (tgt == k3) = true := beq_iff_eq.mpr ht
        simp [List.lookup, hb]
      · have hb : (tgt == k3) = false := beq_eq_false_iff_ne.mpr ht
        simp only [List.lookup, hb]
        exact ih

theorem metaLookup_updS (k tgt : Str) (o : Option Str)
    (m : List (Str × MetaVal)) (hne : tgt ≠ k) :
    metaLookup (updS k o m) tgt = metaLookup m tgt := by
  cases o with
  | none => rfl
  | some v => exact metaLookup_metaSet_ne k tgt (.s v) m hne

theorem metaLookup_updSlist (k tgt : Str) (o : Option (List Str))
    (m : List (Str × MetaVal)) (hne : tgt ≠ k) :
    metaLookup (updSlist k o m) tgt = metaLookup m tgt := by
  cases o with
  | none => rfl
  | some v => exact metaLookup_metaSet_ne k tgt (.slist v) m hne

theorem metaLookup_updObj (k tgt : Str) (o : Option JsonObjList)
    (m : List (Str × MetaVal)) (hne : tgt ≠ k) :
    metaLookup (updObj k o m) tgt = metaLookup m tgt := by
  cases o with
  | none => rfl
  | some v => exact metaLookup_metaSet_ne k tgt (.vobj v) m hne

/-- Updates that do not provide `content_type` leave the `content_type` and
`id` keys of the front-matter unchanged (`id` is not updatable at all). -/
theorem applyUpdates_lookup_preserved (meta : List (Str × MetaVal)) (b : Str)
    (u : ContentUpdate) (today : Str) (hct : u.content_type = none)
    (tgt : Str)
    (h1 : tgt ≠ chars "updated_date") (h2 : tgt ≠ chars "custom_fields")
    (h3 : tgt ≠ chars "tags") (h4 : tgt ≠ chars "categories")
    (h5 : tgt ≠ chars "publish_date") (h6 : tgt ≠ chars "url")
    (h7 : tgt ≠ chars "author") (h8 : tgt ≠ chars "description")
    (h9 : tgt ≠ chars "status") (h10 : tgt ≠ chars "title") :
    metaLookup (applyUpdates meta b u today).1 tgt = metaLookup meta tgt := by
  show metaLookup (metaSet (chars "updated_date") (.s today) _) tgt = _
  rw [metaLookup_metaSet_ne _ _ _ _ h1,
    metaLookup_updObj _ _ _ _ h2,
    metaLookup_updSlist _ _ _ _ h3,
    metaLookup_updSlist _ _ _ _ h4,
    metaLookup_updS _ _ _ _ h5,
    metaLookup_updS _ _ _ _ h6,
    metaLookup_updS _ _ _ _ h7,
    metaLookup_updS _ _ _ _ h8,
    metaLookup_updS _ _ _ _ h9, hct]
  show metaLookup (updS (chars "title") u.title meta) tgt = _
  rw [metaLookup_updS _ _ _ _ h10]

/-- a successfully built item carries the path it was read from, and its
`id` and `content_type` are the front-matter's values. -/
theorem itemFromDoc_spec (path : Str) (m : List (Str × MetaVal)) (b : Str)
    (it : ContentItem) (h : itemFromDoc path m b = some it) :
    it.file_path = path ∧ reqStr m (chars "id") = some it.id ∧
      reqStr m (chars "content_type") = some it.content_type := by
  unfold itemFromDoc at h
  repeat' split at h
  all_goals try exact Option.noConfusion h
  injection h with h
  subst h
  refine ⟨rfl, ?_, ?_⟩
  all_goals assumption

/-- the found branch of the probe loop: the returned item was built by
`itemFromDoc` from the document stored at its own `file_path`. -/
theorem getContentItemAux_found_spec (cid : Str) (fs : FileSys) :
    ∀ (cts : List Str) (ex : ContentItem),
      getContentItemAux cid fs cts = .found ex →
      ∃ meta body, fsLookup ex.file_path fs = some (.doc meta body) ∧
        itemFromDoc ex.file_path meta body = some ex := by
  intro cts
  induction cts with
  | nil => intro ex h; exact absurd h (by simp [getContentItemAux])
  | cons ct rest ih =>
    intro ex h
    unfold getContentItemAux at h
    split at h
    · exact ih ex h
    · exact absurd h (by simp)
    · rename_i meta body hl
      split at h
      · rename_i it hit
        simp only [GetResult.found.injEq] at h
        subst h
        have hp := (itemFromDoc_spec _ _ _ _ hit).1
        rw [← hp] at hl hit
        exact ⟨meta, body, hl, hit⟩
      · exact absurd h (by simp)

theorem getContentItem_found_spec (cid : Str) (fs : FileSys)
    (ex : ContentItem) (h : getContentItem cid fs = .found ex) :
    ∃ meta body, fsLookup ex.file_path fs = some (.doc meta body) ∧
      itemFromDoc ex.file_path meta body = some ex :=
  getContentItemAux_found_spec cid fs defaultContentTypes ex h

/-- the `ContentCreate` used by the C5/C8 examples. -/
def exCreate : ContentCreate :=
  { title := chars "SEO Guide", content_type := chars "blog" }

/-- C5, counterexample: create an item under `blog`, then update its
`content_type` to `video`.  The update succeeds and returns an item whose
`content_type` is `video` but whose `file_path` is still the `blog` path —
not the deterministic path of its current `id` and `content_type` — so the
claimed invariant is not preserved by a `content_type`-changing update. -/
theorem c5_update_type_keeps_old_path :
    (createContentItem (chars "i1") (chars "2024-01-10") exCreate []).2.file_path =
      contentFilePath (chars "i1") (chars "blog") ∧
    ((updateContentItem (chars "i1") { content_type := some (chars "video") }
        (chars "2024-01-11")
        (createContentItem (chars "i1") (chars "2024-01-10") exCreate []).1).map
      (fun p => p.2.map (fun it => (it.content_type, it.file_path)))) =
      some (some (chars "video", contentFilePath (chars "i1") (chars "blog"))) ∧
    contentFilePath (chars "i1") (chars "blog") ≠
      contentFilePath (chars "i1") (chars "video") := by
  refine ⟨by decide, by decide, by decide⟩

/-- Core of the update preservation argument: an update without a
`content_type` change rebuilds the item from front-matter whose
`content_type` and `id` keys are untouched, at the same path. -/
theorem c5_update_core (u : ContentUpdate) (today : Str)
    (meta : List (Str × MetaVal)) (body : Str) (ex it2 : ContentItem)
    (hct : u.content_type = none)
    (hinv : ex.file_path = contentFilePath ex.id ex.content_type)
    (hex : itemFromDoc ex.file_path meta body = some ex)
    (hit2 : itemFromDoc ex.file_path (applyUpdates meta body u today).1
      (applyUpdates meta body u today).2 = some it2) :
    it2.file_path = contentFilePath it2.id it2.content_type := by
  have hspec2 := itemFromDoc_spec _ _ _ _ hit2
  have hspec1 := itemFromDoc_spec _ _ _ _ hex
  have hctp : it2.content_type = ex.content_type := by
    have hpres := applyUpdates_lookup_preserved meta body u today hct
      (chars "content_type") (by decide) (by decide) (by decide) (by decide)
      (by decide) (by decide) (by decide) (by decide) (by decide) (by decide)
    have h2 := hspec2.2.2
    rw [show reqStr (applyUpdates meta body u today).1 (chars "content_type") =
        reqStr meta (chars "content_type") by
      unfold reqStr; rw [hpres]] at h2
    rw [hspec1.2.2] at h2
    exact (Option.some.injEq _ _).mp h2.symm
  have hidp : it2.id = ex.id := by
    have hpres := applyUpdates_lookup_preserved meta body u today hct
      (chars "id") (by decide) (by decide) (by decide) (by decide)
      (by decide) (by decide) (by decide) (by decide) (by decide) (by decide)
    have h2 := hspec2.2.1
    rw [show reqStr (applyUpdates meta body u today).1 (chars "id") =
        reqStr meta (chars "id") by
      unfold reqStr; rw [hpres]] at h2
    rw [hspec1.2.1] at h2
    exact (Option.some.injEq _ _).mp h2.symm
  rw [hspec2.1, hidp, hctp, hinv]

/-- C5, amended: `file_path` is the deterministic path function of the item's
`id` and its content type AT CREATION: creation establishes the invariant,
and an update that does not change `content_type` preserves it; an update
that changes `content_type` leaves the file (and `file_path`) at the old
location, breaking the derived-path property for the new type. -/
theorem c5_path_invariant :
    (∀ (cid today : Str) (c : ContentCreate) (fs : FileSys),
      (createContentItem cid today c fs).2.file_path =
        contentFilePath (createContentItem cid today c fs).2.id
          (createContentItem cid today c fs).2.content_type) ∧
    (∀ (cid : Str) (u : ContentUpdate) (today : Str) (fs fs2 : FileSys)
        (ex it2 : ContentItem),
      u.content_type = none →
      getContentItem cid fs = .found ex →
      ex.file_path = contentFilePath ex.id ex.content_type →
      updateContentItem cid u today fs = some (fs2, some it2) →
      it2.file_path = contentFilePath it2.id it2.content_type) := by
  refine ⟨fun cid today c fs => rfl, ?_⟩
  intro cid u today fs fs2 ex it2 hct hget hinv hupd
  obtain ⟨meta, body, hdoc, hex⟩ := getContentItem_found_spec cid fs ex hget
  unfold updateContentItem at hupd
  split at hupd
  · exact absurd hupd (by simp)
  · exact absurd hupd (by simp)
  · rename_i existing heq
    rw [hget] at heq
    injection heq with heq
    subst heq
    split at hupd
    · rename_i meta2 body2 heq2
      rw [hdoc] at heq2
      injection heq2 with heq2
      injection heq2 with hm hb
      subst hm
      subst hb
      simp only [Option.some.injEq, Prod.mk.injEq] at hupd
      obtain ⟨_, hit2⟩ := hupd
      exact c5_update_core u today meta body ex it2 hct hinv hex hit2
    · exact absurd hupd (by simp)

/-- File system after creating the example item. -/
def exFs1 : FileSys :=
  (createContentItem (chars "i1") (chars "2024-01-10") exCreate []).1

/-- the created example item. -/
def exItem1 : ContentItem :=
  (createContentItem (chars "i1") (chars "2024-01-10") exCreate []).2

/-- a status-only update. -/
def exUpd : ContentUpdate := { status := some (chars "published") }

/-- File system returned by the example update. -/
def exFs2w : FileSys :=
  ((updateContentItem (chars "i1") exUpd (chars "2024-01-11") exFs1).getD
    ([], none)).1

/-- Item returned by the example update. -/
def exIt2w : ContentItem :=
  (((updateContentItem (chars "i1") exUpd (chars "2024-01-11") exFs1).getD
    ([], none)).2).getD exItem1

/-- Closed instantiation of the amended invariant: an update that changes
only the status keeps `file_path` derived from `id` and `content_type`. -/
theorem c5_path_invariant_witness :
    updateContentItem (chars "i1") exUpd (chars "2024-01-11") exFs1 =
      some (exFs2w, some exIt2w) ∧
    exIt2w.file_path = contentFilePath exIt2w.id exIt2w.content_type :=
  ⟨by decide,
    c5_path_invariant.2 (chars "i1") exUpd (chars "2024-01-11") exFs1 exFs2w
      exItem1 exIt2w rfl (by decide) (by decide) (by decide)⟩

/-- C6, counterexample: writing body `" b "` and reading it back yields body
`"b"` — `read` strips the body — so write-then-read does not return the body
equal to the input, and the discrepancy is not a date normalization. -/
theorem c6_roundtrip_strips_body_counterexample :
    readContentFile (writeContentFile [(chars "title", chars "x")]
      (chars " b ")) = some ([(chars "title", chars "x")], chars "b") ∧
    (chars "b") ≠ (chars " b ") := ⟨by decide, by decide⟩

/-- Key characters of the plain YAML fragment. -/
def plainKeyChar (c : Char) : Prop := plainChar c ∨ c = '_'

/-- Value characters of the plain YAML fragment. -/
def plainValChar (c : Char) : Prop := plainChar c ∨ c = ' '

/-- a front-matter entry in the plain fragment: non-empty key of plain key
characters; non-empty value of plain characters and inner spaces, not
looking like a YAML keyword or number (so PyYAML writes it as a plain
scalar and `safe_load` reads it back as the same string). -/
def plainMetaEntry (kv : Str × Str) : Prop :=
  kv.1 ≠ [] ∧ (∀ c ∈ kv.1, plainKeyChar c) ∧
  kv.2 ≠ [] ∧ (∀ c ∈ kv.2, plainValChar c) ∧
  kv.2.head? ≠ some ' ' ∧ kv.2.getLast? ≠ some ' ' ∧
  kv.2 ∉ [chars "null", chars "true", chars "false", chars "yes",
    chars "no", chars "on", chars "off"] ∧
  ¬ (∀ c ∈ kv.2, 48 ≤ c.toNat ∧ c.toNat ≤ 57)

/-- Front matter entirely in the plain fragment. -/
def PlainMeta (m : List (Str × Str)) : Prop := ∀ kv ∈ m, plainMetaEntry kv

instance (c : Char) : Decidable (plainKeyChar c) := by
  unfold plainKeyChar; infer_instance

instance (c : Char) : Decidable (plainValChar c) := by
  unfold plainValChar; infer_instance

instance (kv : Str × Str) : Decidable (plainMetaEntry kv) := by
  unfold plainMetaEntry; infer_instance

instance (m : List (Str × Str)) : Decidable (PlainMeta m) := by
  unfold PlainMeta; infer_instance

theorem splitOnce_first (s0 : Char) (st pre z : Str)
    (h : ∀ c ∈ pre, c ≠ s0) :
    splitOnce (s0 :: st) (pre ++ ((s0 :: st) ++ z)) = some (pre, z) := by
  induction pre with
  | nil =>
    simp only [List.nil_append]
    show splitOnce (s0 :: st) ((s0 :: st) ++ z) = some ([], z)
    rw [List.cons_append, splitOnce]
    rw [if_pos ( List.isPrefixOf_iff_prefix.mpr
      (by rw [← List.cons_append]; exact List.prefix_append _ _))]
    rw [← List.cons_append, List.drop_left]
  | cons c cs ih =>
    have hc : c ≠ s0 := h c (by simp)
    show splitOnce (s0 :: st) (c :: (cs ++ ((s0 :: st) ++ z))) = _
    rw [splitOnce]
    rw [if_neg ?hpre]
    case hpre =>
      intro hp
      have := List.isPrefixOf_iff_prefix.mp hp
      rw [List.cons_prefix_cons] at this
      exact hc this.1.symm
    rw [ih (fun x hx => h x (by simp [hx]))]
    rfl

theorem splitLines_append_newline (x rest : Str) (hx : '\n' ∉ x) :
    splitLines (x ++ '\n' :: rest) = x :: splitLines rest := by
  induction x with
  | nil =>
    show splitLines ('\n' :: rest) = [] :: splitLines rest
    rw [splitLines, if_pos rfl]
  | cons c cs ih =>
    have hc : c ≠ '\n' := fun he => hx (by simp [he])
    show splitLines (c :: (cs ++ '\n' :: rest)) = _
    rw [splitLines, if_neg hc, ih (fun hm => hx (by simp [hm]))]

theorem plainKeyChar_ne (c d : Char) (h : plainKeyChar c)
    (hd : d.toNat < 48 ∨ (57 < d.toNat ∧ d.toNat < 97) ∨ 122 < d.toNat)
    (hd2 : d ≠ '_') : c ≠ d := by
  rcases h with hp | he
  · exact plainChar_ne c d hp hd
  · subst he
    exact fun h2 => hd2 h2.symm

theorem plainValChar_ne (c d : Char) (h : plainValChar c)
    (hd : d.toNat < 48 ∨ (57 < d.toNat ∧ d.toNat < 97) ∨ 122 < d.toNat)
    (hd2 : d ≠ ' ') : c ≠ d := by
  rcases h with hp | he
  · exact plainChar_ne c d hp hd
  · subst he
    exact fun h2 => hd2 h2.symm

theorem isPySpace_false_of_plainKey (c : Char) (h : plainKeyChar c) :
    isPySpace c = false := by
  simp only [isPySpace, decide_eq_false_iff_not]
  rintro (he | he | he | he | he | he)
  · exact plainKeyChar_ne c ' ' h (by decide) (by decide) he
  · exact plainKeyChar_ne c '\t' h (by decide) (by decide) he
  · exact plainKeyChar_ne c '\n' h (by decide) (by decide) he
  · exact plainKeyChar_ne c '\r' h (by decide) (by decide) he
  · rcases h with hp | hu
    · rcases hp with ⟨h1, h2⟩ | ⟨h1, h2⟩ <;> omega
    · subst hu; exact absurd he (by decide)
  · rcases h with hp | hu
    · rcases hp with ⟨h1, h2⟩ | ⟨h1, h2⟩ <;> omega
    · subst hu; exact absurd he (by decide)

/-- Lines of a dumped non-empty plain mapping. -/
theorem splitLines_metaJoin (m : List (Str × Str)) (hm : PlainMeta m) :
    splitLines ((m.map metaLine).flatten) =
      (m.map (fun kv => kv.1 ++ ':' :: ' ' :: kv.2)) ++ [[]] := by
  induction m with
  | nil => rfl
  | cons kv tl ih =>
    have hkv := hm kv (by simp)
    have hnl : '\n' ∉ kv.1 ++ ':' :: ' ' :: kv.2 := by
      intro hmem
      simp only [List.mem_append, List.mem_cons] at hmem
      rcases hmem with h | h | h | h
      · exact plainKeyChar_ne '\n' '\n' (hkv.2.1 '\n' h) (by decide) (by decide) rfl
      · exact absurd h.symm (by decide)
      · exact absurd h.symm (by decide)
      · exact plainValChar_ne '\n' '\n' (hkv.2.2.2.1 '\n' h) (by decide)
          (by decide) rfl
    have hshape : ((kv :: tl).map metaLine).flatten =
        (kv.1 ++ ':' :: ' ' :: kv.2) ++ '\n' :: (tl.map metaLine).flatten := by
      simp [metaLine]
    rw [hshape, splitLines_append_newline _ _ hnl,
      ih (fun x hx => hm x (by simp [hx]))]
    rfl

theorem loadLines_metaLines (m : List (Str × Str)) (hm : PlainMeta m) :
    loadLines (m.map (fun kv => kv.1 ++ ':' :: ' ' :: kv.2)) = some m := by
  induction m with
  | nil => rfl
  | cons kv tl ih =>
    have hkv := hm kv (by simp)
    have hsp : splitOnce (chars ": ") (kv.1 ++ ':' :: ' ' :: kv.2) =
        some (kv.1, kv.2) := by
      have hsh : kv.1 ++ ':' :: ' ' :: kv.2 =
          kv.1 ++ ((':' :: [' ']) ++ kv.2) := by simp
      rw [show chars ": " = ':' :: [' '] from by decide, hsh]
      exact splitOnce_first ':' [' '] kv.1 kv.2
        (fun c hc => plainKeyChar_ne c ':' (hkv.2.1 c hc) (by decide) (by decide))
    show (do
      let p ← splitOnce (chars ": ") (kv.1 ++ ':' :: ' ' :: kv.2)
      let rest ← loadLines (tl.map (fun kv => kv.1 ++ ':' :: ' ' :: kv.2))
      some ((p.1, p.2) :: rest)) = some (kv :: tl)
    rw [hsp, ih (fun x hx => hm x (by simp [hx]))]
    rfl

theorem yamlLoadPlain_dump (m : List (Str × Str)) (hm : PlainMeta m) :
    yamlLoadPlain ('\n' :: yamlDumpPlain m) = some m := by
  cases m with
  | nil => decide
  | cons kv tl =>
    have hlines : splitLines ('\n' :: yamlDumpPlain (kv :: tl)) =
        [] :: (((kv :: tl).map (fun kv => kv.1 ++ ':' :: ' ' :: kv.2)) ++ [[]]) := by
      show splitLines ('\n' :: ((kv :: tl).map metaLine).flatten) = _
      rw [splitLines, if_pos rfl, splitLines_metaJoin (kv :: tl) hm]
    have hkeep : ∀ l ∈ (kv :: tl).map (fun kv => kv.1 ++ ':' :: ' ' :: kv.2),
        (!(l.all isPySpace)) = true := by
      intro l hl
      obtain ⟨kv2, hkv2, rfl⟩ := List.mem_map.mp hl
      have hent := hm kv2 hkv2
      obtain ⟨c, k', hk⟩ : ∃ c k', kv2.1 = c :: k' := by
        cases hkv1 : kv2.1 with
        | nil => exact absurd hkv1 hent.1
        | cons c k' => exact ⟨c, k', rfl⟩
      rw [hk]
      show (!((c :: (k' ++ ':' :: ' ' :: kv2.2)).all isPySpace)) = true
      simp [isPySpace_false_of_plainKey c (hent.2.1 c (by simp [hk]))]
    have hfilter : (splitLines ('\n' :: yamlDumpPlain (kv :: tl))).filter
        (fun l => !(l.all isPySpace)) =
        (kv :: tl).map (fun kv => kv.1 ++ ':' :: ' ' :: kv.2) := by
      rw [hlines, List.filter_cons, if_neg (by simp), List.filter_append,
        List.filter_eq_self.mpr hkeep]
      simp
    unfold yamlLoadPlain
    rw [hfilter]
    show (if (List.map (fun kv => kv.1 ++ ':' :: ' ' :: kv.2) (kv :: tl)) ==
        [chars "\x7b\x7d"] then some [] else
        loadLines (List.map (fun kv => kv.1 ++ ':' :: ' ' :: kv.2) (kv :: tl))) =
      some (kv :: tl)
    rw [if_neg ?hne]
    case hne =>
      intro hbeq
      have heq := eq_of_beq hbeq
      have hlen := congrArg List.length heq
      simp only [List.length_map, List.length_cons, List.length_singleton] at hlen
      have htl : tl = [] := by
        cases tl with
        | nil => rfl
        | cons a b => simp at hlen
      subst htl
      simp only [List.map_cons, List.map_nil] at heq
      have hline := List.cons.injEq .. |>.mp heq |>.1
      have hlen2 := congrArg List.length hline
      have hent := hm kv (by simp)
      have hk1 : 1 ≤ kv.1.length := by
        cases hkv1 : kv.1 with
        | nil => exact absurd hkv1 hent.1
        | cons c k' => simp [hkv1]
      have hv1 : 1 ≤ kv.2.length := by
        cases hkv2 : kv.2 with
        | nil => exact absurd hkv2 hent.2.2.1
        | cons c k' => simp [hkv2]
      rw [show (chars "\x7b\x7d").length = 2 from by decide] at hlen2
      simp only [List.length_append, List.length_cons] at hlen2
      omega
    exact loadLines_metaLines (kv :: tl) hm

theorem yamlDump_noDash (m : List (Str × Str)) (hm : PlainMeta m) :
    ∀ c ∈ yamlDumpPlain m, c ≠ '-' := by
  cases m with
  | nil =>
    intro c hc
    have hm3 : c ∈ ['\x7b', '\x7d', '\n'] := hc
    simp only [List.mem_cons, List.not_mem_nil, or_false] at hm3
    rcases hm3 with h | h | h <;> (subst h; decide)
  | cons kv tl =>
    intro c hc
    have hmem : c ∈ ((kv :: tl).map metaLine).flatten := hc
    rw [List.mem_flatten] at hmem
    obtain ⟨l, hl, hcl⟩ := hmem
    obtain ⟨kv2, hkv2, rfl⟩ := List.mem_map.mp hl
    have hent := hm kv2 hkv2
    simp only [metaLine, List.mem_append, List.mem_cons,
      List.not_mem_nil, or_false] at hcl
    rcases hcl with h | h | h | h | h
    · exact plainKeyChar_ne c '-' (hent.2.1 c h) (by decide) (by decide)
    · subst h; decide
    · subst h; decide
    · exact plainValChar_ne c '-' (hent.2.2.2.1 c h) (by decide) (by decide)
    · subst h; decide

theorem pyStrip_nl2 (b : Str) : pyStrip ('\n' :: '\n' :: b) = pyStrip b := by
  unfold pyStrip
  rw [List.dropWhile_cons_of_pos (by decide), List.dropWhile_cons_of_pos (by decide)]

/-- Mechanics of reading back a written file: with a dash-free front-matter
text, the three `---`-separated parts are recovered exactly and the body is
stripped. -/
theorem readContentFile_write_shape (yaml b : Str)
    (hnd : ∀ c ∈ yaml, c ≠ '-') :
    readContentFile ((chars "---\n") ++ (yaml ++ ((chars "---\n\n") ++ b))) =
      (yamlLoadPlain ('\n' :: yaml)).map (fun fm => (fm, pyStrip b)) := by
  have e1 : (chars "---\n") ++ (yaml ++ ((chars "---\n\n") ++ b)) =
      ('-' :: ['-', '-']) ++ (('\n' :: yaml) ++ (('-' :: ['-', '-']) ++
        ('\n' :: '\n' :: b))) := by
    rw [show chars "---\n" = ['-', '-', '-', '\n'] from by decide,
      show chars "---\n\n" = ['-', '-', '-', '\n', '\n'] from by decide]
    simp
  have hnd2 : ∀ c ∈ ('\n' :: yaml), c ≠ '-' := by
    intro c hcm
    rcases List.mem_cons.mp hcm with h | h
    · subst h; decide
    · exact hnd c h
  have hs1 : splitOnce ('-' :: ['-', '-']) (('-' :: ['-', '-']) ++
      (('\n' :: yaml) ++ (('-' :: ['-', '-']) ++ ('\n' :: '\n' :: b)))) =
      some ([], ('\n' :: yaml) ++ (('-' :: ['-', '-']) ++ ('\n' :: '\n' :: b))) := by
    rw [show ('-' :: ['-', '-']) ++ (('\n' :: yaml) ++ (('-' :: ['-', '-']) ++
        ('\n' :: '\n' :: b))) = [] ++ (('-' :: ['-', '-']) ++ (('\n' :: yaml) ++
        (('-' :: ['-', '-']) ++ ('\n' :: '\n' :: b)))) from by simp]
    exact splitOnce_first '-' ['-', '-'] [] _ (by simp)
  have hs2 : splitOnce ('-' :: ['-', '-']) (('\n' :: yaml) ++
      (('-' :: ['-', '-']) ++ ('\n' :: '\n' :: b))) =
      some ('\n' :: yaml, '\n' :: '\n' :: b) :=
    splitOnce_first '-' ['-', '-'] ('\n' :: yaml) ('\n' :: '\n' :: b) hnd2
  have hps : pySplit2 ('-' :: ['-', '-']) (('-' :: ['-', '-']) ++
      (('\n' :: yaml) ++ (('-' :: ['-', '-']) ++ ('\n' :: '\n' :: b)))) =
      [[], '\n' :: yaml, '\n' :: '\n' :: b] := by
    unfold pySplit2
    rw [hs1]
    show (match splitOnce ('-' :: ['-', '-']) (('\n' :: yaml) ++
        (('-' :: ['-', '-']) ++ ('\n' :: '\n' :: b))) with
      | none => [([] : Str), ('\n' :: yaml) ++ (('-' :: ['-', '-']) ++
          ('\n' :: '\n' :: b))]
      | some (b2, r2) => [[], b2, r2]) = _
    rw [hs2]
  rw [e1]
  unfold readContentFile
  rw [if_pos ?hpre]
  case hpre =>
    rw [show chars "---" = '-' :: ['-', '-'] from by decide]
    exact List.isPrefixOf_iff_prefix.mpr (List.prefix_append _ _)
  rw [show chars "---" = '-' :: ['-', '-'] from by decide, hps]
  show (yamlLoadPlain ('\n' :: yaml)).map
    (fun fm => (fm, pyStrip ('\n' :: '\n' :: b))) = _
  simp only [pyStrip_nl2]

/-- C6, amended: for front matter in the plain YAML fragment, write followed
by read returns the metadata unchanged (date values being their ISO strings,
the normalization is the identity) and the body stripped of leading and
trailing whitespace. -/
theorem c6_write_read_roundtrip (m : List (Str × Str)) (b : Str)
    (hm : PlainMeta m) :
    readContentFile (writeContentFile m b) = some (m, pyStrip b) := by
  show readContentFile ((chars "---\n") ++ (yamlDumpPlain m ++
    ((chars "---\n\n") ++ b))) = some (m, pyStrip b)
  rw [readContentFile_write_shape (yamlDumpPlain m) b (yamlDump_noDash m hm),
    yamlLoadPlain_dump m hm]
  rfl

/-- Closed instantiation of the amended round-trip on a plain front matter
and a whitespace-padded body. -/
theorem c6_write_read_roundtrip_witness :
    PlainMeta [(chars "title", chars "hello world"),
      (chars "content_type", chars "blog post")] ∧
    readContentFile (writeContentFile [(chars "title", chars "hello world"),
      (chars "content_type", chars "blog post")] (chars "  xy  ")) =
      some ([(chars "title", chars "hello world"),
        (chars "content_type", chars "blog post")], pyStrip (chars "  xy  ")) :=
  ⟨by decide,
    c6_write_read_roundtrip [(chars "title", chars "hello world"),
      (chars "content_type", chars "blog post")] (chars "  xy  ") (by decide)⟩

theorem rebuild_foldl_count (fs : FileSys) :
    ∀ acc : DbState × Nat,
      (fs.foldl (fun acc pf =>
        match parseFileToItem pf.1 pf.2 with
        | some it => (indexContentItem it acc.1, acc.2 + 1)
        | none => acc) acc).2 =
      acc.2 + (fs.filterMap (fun pf => parseFileToItem pf.1 pf.2)).length := by
  induction fs with
  | nil => intro acc; simp
  | cons pf tl ih =>
    intro acc
    rw [List.foldl_cons, List.filterMap_cons]
    cases hp : parseFileToItem pf.1 pf.2 with
    | none =>
      simp only [hp]
      rw [ih acc]
    | some it =>
      simp only [hp]
      rw [ih (indexContentItem it acc.1, acc.2 + 1)]
      simp only [List.length_cons]
      omega

theorem rebuild_foldl_db (fs : FileSys) :
    ∀ acc : DbState × Nat,
      (fs.foldl (fun acc pf =>
        match parseFileToItem pf.1 pf.2 with
        | some it => (indexContentItem it acc.1, acc.2 + 1)
        | none => acc) acc).1 =
      (fs.filterMap (fun pf => parseFileToItem pf.1 pf.2)).foldl
        (fun d it => indexContentItem it d) acc.1 := by
  induction fs with
  | nil => intro acc; simp
  | cons pf tl ih =>
    intro acc
    rw [List.foldl_cons, List.filterMap_cons]
    cases hp : parseFileToItem pf.1 pf.2 with
    | none =>
      simp only [hp]
      rw [ih acc]
    | some it =>
      simp only [hp]
      rw [ih (indexContentItem it acc.1, acc.2 + 1), List.foldl_cons]

/-- C7: the rebuild starts from cleared tables (its result does not depend on
the prior index state at all, and an empty library leaves both tables empty),
upserts exactly the parseable files in scan order while skipping — not
failing on — the unparseable ones, returns the count of successfully indexed
items, and a second rebuild with unchanged files returns the same count, the
same index state, and therefore identical results for every query. -/
theorem c7_rebuild_idempotent (fs : FileSys) (db db2 : DbState) :
    rebuildIndexFromFiles fs db = rebuildIndexFromFiles fs db2 ∧
    rebuildIndexFromFiles [] db = (⟨[], []⟩, 0) ∧
    (rebuildIndexFromFiles fs db).2 =
      (fs.filterMap (fun pf => parseFileToItem pf.1 pf.2)).length ∧
    (rebuildIndexFromFiles fs db).1 =
      (fs.filterMap (fun pf => parseFileToItem pf.1 pf.2)).foldl
        (fun d it => indexContentItem it d) ⟨[], []⟩ ∧
    rebuildIndexFromFiles fs (rebuildIndexFromFiles fs db).1 =
      rebuildIndexFromFiles fs db ∧
    (∀ (f : SearchFilters) (limit offset : Nat) (today : Str),
      searchContent f limit offset today
        (rebuildIndexFromFiles fs (rebuildIndexFromFiles fs db).1).1 =
      searchContent f limit offset today (rebuildIndexFromFiles fs db).1) := by
  refine ⟨rfl, rfl, ?_, ?_, rfl, fun f limit offset today => rfl⟩
  · show (fs.foldl _ ((⟨[], []⟩ : DbState), 0)).2 = _
    rw [rebuild_foldl_count fs ((⟨[], []⟩ : DbState), 0)]
    omega
  · show (fs.foldl _ ((⟨[], []⟩ : DbState), 0)).1 = _
    rw [rebuild_foldl_db fs ((⟨[], []⟩ : DbState), 0)]

end CT
